import Mathlib

/-!
Verification development for the kiro-account-manager request-translation and
account-pool core.

The JavaScript source is shallowly embedded: JS strings are Lean `String`s
(JS `length` / `slice` count UTF-16 code units; here they count characters),
JSON values are the inductive `JVal`, JS objects built by the code are Lean
structures, and the in-memory account map is a function `String → Option Account`.
`Map` / `Set` objects threaded through the translator are association lists.
External effect primitives (`uuidv4()`, `JSON.parse` of tool-input strings,
wall-clock timestamps) are passed in as parameters.
-/

/-! ### JS string primitives -/

/-- JS `String.prototype.slice(0, n)` (model: first `n` characters). -/
def jsTake (s : String) (n : Nat) : String := String.mk (s.data.take n)

/-- JS `String.prototype.length` (model: number of characters). -/
def jsLen (s : String) : Nat := s.data.length

/-- JS `String.prototype.trim()`: drop whitespace from both ends. -/
def jsTrim (s : String) : String :=
  String.mk ((((s.data.dropWhile Char.isWhitespace).reverse).dropWhile
    Char.isWhitespace).reverse)

/-- JS `String.prototype.toLowerCase()` (character-wise). -/
def jsToLower (s : String) : String := String.mk (s.data.map Char.toLower)

/-- Substring test on character lists, used to model JS `String.prototype.includes`. -/
def listContainsSub : List Char → List Char → Bool
  | hs, ns =>
    if ns.isPrefixOf hs then true
    else
      match hs with
      | [] => false
      | _ :: t => listContainsSub t ns

/-- JS `haystack.includes(needle)`. -/
def jsIncludes (hay sub : String) : Bool := listContainsSub hay.data sub.data

/-- JS `a || b` for strings (empty string is falsy). -/
def jsOrStr (a b : String) : String := if a = "" then b else a

/-- JS `Array.prototype.join(sep)` for string arrays. -/
def joinWith (sep : String) : List String → String
  | [] => ""
  | [x] => x
  | x :: xs => x ++ sep ++ joinWith sep xs

/-- JS `arr.slice(-n)`: the last `n` elements (whole list when shorter). -/
def jsSliceLast {α : Type} (l : List α) (n : Nat) : List α := l.drop (l.length - n)

/-! ### Decimal rendering of naturals

The source renders duplicate-disambiguation counters with a JS template string
(decimal numerals). `strOfNat` is that decimal rendering, written with
structural fuel so that it evaluates by `rfl` and supports an injectivity
proof (needed for the tool-name uniqueness invariant). -/

/-- The character of a decimal digit. -/
def digitCharOf (d : Nat) : Char :=
  match d with
  | 0 => '0' | 1 => '1' | 2 => '2' | 3 => '3' | 4 => '4'
  | 5 => '5' | 6 => '6' | 7 => '7' | 8 => '8' | _ => '9'

/-- Little-endian decimal digits of `n`, with explicit fuel. -/
def natDigitsFuel : Nat → Nat → List Nat
  | 0, _ => []
  | _ + 1, 0 => []
  | f + 1, n + 1 => (n + 1) % 10 :: natDigitsFuel f ((n + 1) / 10)

/-- Little-endian decimal digits of `n` (empty for 0). -/
def natDigits (n : Nat) : List Nat := natDigitsFuel n n

/-- Decimal rendering of a natural number. -/
def strOfNat (n : Nat) : String :=
  if n = 0 then "0" else String.mk (((natDigits n).map digitCharOf).reverse)

/-- Value of a little-endian digit list. -/
def digitsVal : List Nat → Nat
  | [] => 0
  | d :: ds => d + 10 * digitsVal ds

theorem digitsVal_natDigitsFuel : ∀ f n, n ≤ f → digitsVal (natDigitsFuel f n) = n := by
  intro f
  induction f with
  | zero => intro n h; interval_cases n; rfl
  | succ f ih =>
    intro n h
    match n with
    | 0 => rfl
    | m + 1 =>
      have hdiv : (m + 1) / 10 ≤ f := by
        have := Nat.div_lt_self (Nat.succ_pos m) (by norm_num : (1:Nat) < 10)
        omega
      simp only [natDigitsFuel, digitsVal, ih _ hdiv]
      omega

theorem digitsVal_natDigits (n : Nat) : digitsVal (natDigits n) = n :=
  digitsVal_natDigitsFuel n n (Nat.le_refl n)

theorem natDigitsFuel_lt_ten : ∀ f n d, d ∈ natDigitsFuel f n → d < 10 := by
  intro f
  induction f with
  | zero => intro n d h; simp [natDigitsFuel] at h
  | succ f ih =>
    intro n d h
    match n with
    | 0 => simp [natDigitsFuel] at h
    | m + 1 =>
      simp only [natDigitsFuel, List.mem_cons] at h
      rcases h with h | h
      · subst h; exact Nat.mod_lt _ (by norm_num)
      · exact ih _ _ h

theorem digitCharOf_inj_fin : ∀ d e : Fin 10, digitCharOf d.1 = digitCharOf e.1 → d = e := by
  decide

theorem digitCharOf_inj {d e : Nat} (hd : d < 10) (he : e < 10)
    (h : digitCharOf d = digitCharOf e) : d = e := by
  have := digitCharOf_inj_fin ⟨d, hd⟩ ⟨e, he⟩ h
  exact congrArg Fin.val this

theorem map_digitCharOf_inj : ∀ l1 l2 : List Nat, (∀ d ∈ l1, d < 10) → (∀ d ∈ l2, d < 10) →
    l1.map digitCharOf = l2.map digitCharOf → l1 = l2 := by
  intro l1
  induction l1 with
  | nil => intro l2 _ _ h; cases l2 <;> simp_all
  | cons a t ih =>
    intro l2 h1 h2 h
    cases l2 with
    | nil => simp_all
    | cons b u =>
      simp only [List.map_cons, List.cons.injEq] at h
      have ha := digitCharOf_inj (h1 a (by simp)) (h2 b (by simp)) h.1
      subst ha
      have := ih u (fun d hd => h1 d (List.mem_cons_of_mem _ hd))
        (fun d hd => h2 d (List.mem_cons_of_mem _ hd)) h.2
      simp [this]

theorem strOfNat_inj : ∀ a b : Nat, strOfNat a = strOfNat b → a = b := by
  intro a b h
  unfold strOfNat at h
  by_cases ha : a = 0 <;> by_cases hb : b = 0 <;> simp [ha, hb] at h ⊢
  · -- a = 0, b ≠ 0
    exfalso
    have hdata : ("0" : String).data = ((natDigits b).map digitCharOf).reverse :=
      congrArg String.data h
    have : (natDigits b).map digitCharOf = ['0'] := by
      have := congrArg List.reverse hdata
      simpa using this.symm
    have hd : natDigits b = [0] := by
      apply map_digitCharOf_inj _ [0]
      · exact fun d hd => natDigitsFuel_lt_ten _ _ _ hd
      · intro d hd; simp at hd; omega
      · simpa [digitCharOf] using this
    have := digitsVal_natDigits b
    rw [hd] at this
    simp [digitsVal] at this
    exact hb this.symm
  · -- a ≠ 0, b = 0
    exfalso
    have hdata : ((natDigits a).map digitCharOf).reverse = ("0" : String).data :=
      congrArg String.data h
    have : (natDigits a).map digitCharOf = ['0'] := by
      have := congrArg List.reverse hdata
      simpa using this
    have hd : natDigits a = [0] := by
      apply map_digitCharOf_inj _ [0]
      · exact fun d hd => natDigitsFuel_lt_ten _ _ _ hd
      · intro d hd; simp at hd; omega
      · simpa [digitCharOf] using this
    have := digitsVal_natDigits a
    rw [hd] at this
    simp [digitsVal] at this
    exact ha this.symm
  · -- both nonzero
    have hdata := congrArg String.data h
    simp only [] at hdata
    have hrev := congrArg List.reverse hdata
    simp only [List.reverse_reverse] at hrev
    have hmap : (natDigits a).map digitCharOf = (natDigits b).map digitCharOf := hrev
    have hdig : natDigits a = natDigits b :=
      map_digitCharOf_inj _ _ (fun d hd => natDigitsFuel_lt_ten _ _ _ hd)
        (fun d hd => natDigitsFuel_lt_ten _ _ _ hd) hmap
    have := digitsVal_natDigits a
    rw [hdig, digitsVal_natDigits] at this
    exact this.symm

/-! ### JSON values (the JS data the translator consumes) -/

/-- A JSON-like JS value. `null` also stands for `undefined` (the code treats
them alike via `== null`, `??` and truthiness). -/
inductive JVal where
  | null
  | bool (b : Bool)
  | num (n : Int)
  | str (s : String)
  | arr (elems : List JVal)
  | obj (fields : List (String × JVal))

/-- JS property access `o.k` on an object's field list (`undefined` → `.null`). -/
def getField (fields : List (String × JVal)) (k : String) : JVal :=
  match fields.find? (fun p => p.1 == k) with
  | some p => p.2
  | none => .null

theorem sizeOf_getField (fields : List (String × JVal)) (k : String) :
    sizeOf (getField fields k) ≤ 1 + sizeOf fields := by
  unfold getField
  split
  case h_1 p h =>
    have hs := List.sizeOf_lt_of_mem (List.mem_of_find?_eq_some h)
    cases p
    simp_all
    omega
  case h_2 => simp

/-- JS truthiness: `null`/`undefined`, `false`, `0`, `""` are falsy. -/
def jsTruthy : JVal → Bool
  | .null => false
  | .bool b => b
  | .num n => n != 0
  | .str s => s != ""
  | .arr _ => true
  | .obj _ => true

/-- JS `a ?? b` (nullish coalescing). -/
def jsNullishOr (a b : JVal) : JVal := match a with | .null => b | v => v

/-- JS `a || b` on values. -/
def jsOrJ (a b : JVal) : JVal := if jsTruthy a then a else b

mutual
/-- JS `JSON.stringify` (string escaping elided; `try` never throws on these
finite trees). -/
def jsonStringify : JVal → String
  | .null => "null"
  | .bool b => if b then "true" else "false"
  | .num n => toString n
  | .str s => "\"" ++ s ++ "\""
  | .arr xs => "[" ++ joinWith "," (jsonStringifyList xs) ++ "]"
  | .obj fs => "\x7b" ++ joinWith "," (jsonStringifyFields fs) ++ "\x7d"
termination_by v => sizeOf v
decreasing_by
  all_goals (simp <;> omega)

def jsonStringifyList : List JVal → List String
  | [] => []
  | x :: xs => jsonStringify x :: jsonStringifyList xs
termination_by l => sizeOf l
decreasing_by
  all_goals (simp <;> omega)

def jsonStringifyFields : List (String × JVal) → List String
  | [] => []
  | (k, v) :: fs => ("\"" ++ k ++ "\":" ++ jsonStringify v) :: jsonStringifyFields fs
termination_by l => sizeOf l
decreasing_by
  all_goals (simp <;> omega)
end

mutual
/-- JS `String(x)` conversion. -/
def jValToString : JVal → String
  | .null => "null"
  | .bool b => if b then "true" else "false"
  | .num n => toString n
  | .str s => s
  | .arr xs => joinWith "," (jValToStringList xs)
  | .obj _ => "[object Object]"
termination_by v => sizeOf v
decreasing_by
  all_goals (simp <;> omega)

def jValToStringList : List JVal → List String
  | [] => []
  | .null :: xs => "" :: jValToStringList xs
  | x :: xs => jValToString x :: jValToStringList xs
termination_by l => sizeOf l
decreasing_by
  all_goals (simp <;> omega)
end

/-- `coerceString(value, fallback)` from the source: strings pass through,
`null`/`undefined` yield the fallback, numbers and booleans stringify, other
values go through `JSON.stringify`. -/
def coerceStringJ (v : JVal) (fallback : String) : String :=
  match v with
  | .str s => s
  | .null => fallback
  | .num n => toString n
  | .bool b => if b then "true" else "false"
  | .arr xs => jsonStringify (.arr xs)
  | .obj fs => jsonStringify (.obj fs)

/-- `truncateString(value, maxLen)` from the source (the value is already a
string at every use modelled here). -/
def truncateString (s : String) (maxLen : Nat) : String :=
  if jsLen s ≤ maxLen then s else jsTake s maxLen ++ "\n...[truncated]"

mutual
/-- `extractTextFromAny` from the source. -/
def extractTextFromAny : JVal → String
  | .null => ""
  | .str s => s
  | .num n => toString n
  | .bool b => if b then "true" else "false"
  | .arr xs => joinWith "\n" ((extractTextList xs).filter (fun s => s ≠ ""))
  | .obj fs =>
    match getField fs "text" with
    | .str s => s
    | _ =>
      match h2 : getField fs "content" with
      | .str s => s
      | .arr xs => joinWith "\n" ((extractTextList xs).filter (fun s => s ≠ ""))
      | _ => coerceStringJ (.obj fs) ""
termination_by v => sizeOf v
decreasing_by
  all_goals first
    | (simp <;> omega)
    | (have hgf := sizeOf_getField fs "content"; rw [h2] at hgf; simp at hgf ⊢ <;> omega)

def extractTextList : List JVal → List String
  | [] => []
  | x :: xs => extractTextFromAny x :: extractTextList xs
termination_by l => sizeOf l
decreasing_by
  all_goals (simp <;> omega)
end

/-! ### String lemmas -/

theorem strMk_data (s : String) : String.mk s.data = s := by cases s; rfl

theorem strData_append (a b : String) : (a ++ b).data = a.data ++ b.data := rfl

theorem jsLen_append (a b : String) : jsLen (a ++ b) = jsLen a + jsLen b := by
  unfold jsLen
  rw [strData_append, List.length_append]

theorem jsLen_take (s : String) (n : Nat) : jsLen (jsTake s n) = min n (jsLen s) := by
  unfold jsLen jsTake
  simp [List.length_take]

theorem jsTake_append_left (a b : String) (n : Nat) (h : jsLen a = n) :
    jsTake (a ++ b) n = String.mk a.data := by
  unfold jsTake
  rw [strData_append, List.take_append_eq_append_take]
  unfold jsLen at h
  rw [List.take_of_length_le (by omega), h, Nat.sub_self, List.take_zero, List.append_nil]

theorem truncateString_ne_empty (s : String) (m : Nat) (h : s ≠ "") :
    truncateString s m ≠ "" := by
  unfold truncateString
  split
  · exact h
  · intro hc
    have := congrArg jsLen hc
    rw [jsLen_append] at this
    have h15 : jsLen "\n...[truncated]" = 15 := by decide
    have h0 : jsLen "" = 0 := by decide
    omega

theorem truncateString_idem (s : String) (m : Nat) :
    truncateString (truncateString s m) m = truncateString s m := by
  unfold truncateString
  by_cases h : jsLen s ≤ m
  · simp [h]
  · rw [if_neg h]
    have hlen : jsLen (jsTake s m ++ "\n...[truncated]") = m + 15 := by
      rw [jsLen_append, jsLen_take]
      have h15 : jsLen "\n...[truncated]" = 15 := by decide
      omega
    rw [if_neg (by omega)]
    have htk : jsTake (jsTake s m ++ "\n...[truncated]") m = String.mk (jsTake s m).data := by
      apply jsTake_append_left
      rw [jsLen_take]; omega
    rw [htk, strMk_data]

theorem dropWhile_dropWhile {α : Type} (p : α → Bool) (l : List α) :
    List.dropWhile p (List.dropWhile p l) = List.dropWhile p l := by
  induction l with
  | nil => rfl
  | cons a t ih =>
    by_cases h : p a
    · rw [List.dropWhile_cons, if_pos h, ih]
    · rw [List.dropWhile_cons, if_neg h, List.dropWhile_cons, if_neg h]

theorem headDropWhile_not {α : Type} (p : α → Bool) (l : List α) :
    ∀ c, (List.dropWhile p l).head? = some c → p c = false := by
  induction l with
  | nil => intro c h; simp [List.dropWhile] at h
  | cons a t ih =>
    intro c h
    by_cases hp : p a
    · rw [List.dropWhile_cons, if_pos hp] at h; exact ih c h
    · rw [List.dropWhile_cons, if_neg hp] at h
      simp at h
      subst h
      simpa using hp

theorem dropWhile_eq_self_of_head {α : Type} (p : α → Bool) (l : List α)
    (h : ∀ c, l.head? = some c → p c = false) : List.dropWhile p l = l := by
  cases l with
  | nil => rfl
  | cons a t =>
    rw [List.dropWhile_cons, if_neg]
    simp [h a rfl]

theorem getLastDropWhile {α : Type} (p : α → Bool) (l : List α)
    (h : List.dropWhile p l ≠ []) : (List.dropWhile p l).getLast? = l.getLast? := by
  induction l with
  | nil => simp [List.dropWhile] at h
  | cons a t ih =>
    by_cases hp : p a
    · rw [List.dropWhile_cons, if_pos hp] at h ⊢
      have ht : t ≠ [] := by
        intro he; subst he; simp [List.dropWhile] at h
      rw [ih h]
      cases t with
      | nil => exact absurd rfl ht
      | cons b u => rfl
    · rw [List.dropWhile_cons, if_neg hp]

theorem jsTrim_head_not_ws (s : String) :
    ∀ c, (jsTrim s).data.head? = some c → c.isWhitespace = false := by
  intro c h
  unfold jsTrim at h
  rw [List.head?_reverse] at h
  by_cases hb : List.dropWhile Char.isWhitespace
      (List.dropWhile Char.isWhitespace s.data).reverse = []
  · rw [hb] at h; simp at h
  · rw [getLastDropWhile _ _ hb, List.getLast?_reverse] at h
    exact headDropWhile_not _ _ c h

theorem jsTrim_last_not_ws (s : String) :
    ∀ c, (jsTrim s).data.getLast? = some c → c.isWhitespace = false := by
  intro c h
  unfold jsTrim at h
  rw [List.getLast?_reverse] at h
  exact headDropWhile_not _ _ c h

theorem jsTrim_idem (s : String) : jsTrim (jsTrim s) = jsTrim s := by
  have h1 : List.dropWhile Char.isWhitespace (jsTrim s).data = (jsTrim s).data :=
    dropWhile_eq_self_of_head _ _ (jsTrim_head_not_ws s)
  have h2 : List.dropWhile Char.isWhitespace ((jsTrim s).data).reverse =
      ((jsTrim s).data).reverse := by
    apply dropWhile_eq_self_of_head
    intro c hc
    rw [List.head?_reverse] at hc
    exact jsTrim_last_not_ws s c hc
  show String.mk _ = _
  rw [h1, h2, List.reverse_reverse, strMk_data]

theorem jsTrim_truncate (w : String) (m : Nat) (hw : jsTrim w ≠ "") (hm : 0 < m) :
    jsTrim (truncateString (jsTrim w) m) = truncateString (jsTrim w) m := by
  unfold truncateString
  by_cases h : jsLen (jsTrim w) ≤ m
  · rw [if_pos h]; exact jsTrim_idem w
  · rw [if_neg h]
    set t := jsTake (jsTrim w) m ++ "\n...[truncated]" with ht
    have hdata : t.data = (jsTrim w).data.take m ++ ("\n...[truncated]" : String).data := by
      rw [ht, strData_append]; rfl
    have hne : (jsTrim w).data ≠ [] := by
      intro hc
      apply hw
      have := strMk_data (jsTrim w)
      rw [hc] at this
      exact this.symm
    have hhead : ∀ c, t.data.head? = some c → c.isWhitespace = false := by
      intro c hc
      rw [hdata] at hc
      cases hd : (jsTrim w).data with
      | nil => exact absurd hd hne
      | cons a u =>
        rw [hd] at hc
        cases m with
        | zero => omega
        | succ k =>
          rw [List.take_succ_cons, List.cons_append, List.head?_cons,
            Option.some.injEq] at hc
          subst hc
          exact jsTrim_head_not_ws w a (by rw [hd]; rfl)
    have hlast : ∀ c, t.data.getLast? = some c → c.isWhitespace = false := by
      intro c hc
      rw [hdata, List.getLast?_append_of_ne_nil _ (by decide)] at hc
      have : (("\n...[truncated]" : String).data).getLast? = some ']' := by decide
      rw [this] at hc
      cases hc
      decide
    have h1 : List.dropWhile Char.isWhitespace t.data = t.data :=
      dropWhile_eq_self_of_head _ _ hhead
    have h2 : List.dropWhile Char.isWhitespace (t.data).reverse = (t.data).reverse := by
      apply dropWhile_eq_self_of_head
      intro c hc
      rw [List.head?_reverse] at hc
      exact hlast c hc
    show String.mk _ = _
    rw [h1, h2, List.reverse_reverse, strMk_data]

theorem jsSliceLast_of_le {α : Type} (l : List α) (n : Nat) (h : l.length ≤ n) :
    jsSliceLast l n = l := by
  unfold jsSliceLast
  rw [Nat.sub_eq_zero_of_le h, List.drop_zero]

theorem jsSliceLast_length {α : Type} (l : List α) (n : Nat) :
    (jsSliceLast l n).length ≤ n := by
  unfold jsSliceLast
  rw [List.length_drop]
  omega

/-! ### Upstream (Kiro) request data model

`currentMessage` in the wire format is `{userInputMessage: {...}}`; the
structure `UserInputMessage` models that inner object directly. The guard
`if (!state || !current) return req` in `buildFallbackRequest` is always
passed here because the embedding's types make both present. -/

/-- One `{text}` item of a tool result's content array. -/
structure ToolResultText where
  text : String

structure KiroToolResult where
  toolUseId : String
  status : String
  content : List ToolResultText

structure KiroToolUse where
  toolUseId : String
  name : String
  input : JVal

structure KiroToolSpec where
  name : String
  description : String
  /-- The `inputSchema.json` value. -/
  inputSchemaJson : JVal

structure KiroTool where
  toolSpecification : KiroToolSpec

structure UserInputMessageContext where
  tools : Option (List KiroTool)
  toolResults : Option (List KiroToolResult)

structure UserInputMessage where
  content : String
  modelId : Option String
  origin : Option String
  userInputMessageContext : Option UserInputMessageContext

structure AssistantResponseMessage where
  content : String
  toolUses : Option (List KiroToolUse)

inductive HistoryEntry where
  | user (m : UserInputMessage)
  | assistant (m : AssistantResponseMessage)

structure ConversationState where
  agentContinuationId : String
  agentTaskType : String
  chatTriggerType : String
  currentMessage : UserInputMessage
  conversationId : String
  history : List HistoryEntry

structure KiroRequest where
  conversationState : ConversationState
  profileArn : Option String

/-! ### Tool-name sanitization (`sanitizeToolName`, `getOrCreateKiroToolName`) -/

/-- A word character in the sense of the regex class `[a-zA-Z0-9_]`. -/
def isAlnumU (c : Char) : Bool := c.isAlpha || c.isDigit || c == '_'

/-- `replace(/_+/g, '_')`: collapse runs of underscores. -/
def collapseUnd : List Char → List Char
  | [] => []
  | [c] => [c]
  | c :: d :: t =>
    if c == '_' && d == '_' then collapseUnd (d :: t) else c :: collapseUnd (d :: t)

/-- `replace(/^_+|_+$/g, '')`: strip leading and trailing underscores. -/
def trimUnd (l : List Char) : List Char :=
  ((l.dropWhile (· == '_')).reverse.dropWhile (· == '_')).reverse

/-- Replace non-word characters by `_`, collapse runs, strip ends: the
`replaced`/`trimmed` stage of `sanitizeToolName`. -/
def sanitizedChars (name : String) : List Char :=
  trimUnd (collapseUnd (name.data.map (fun c => if isAlnumU c then c else '_')))

/-- The `safe` stage of `sanitizeToolName`: fall back to `tool` when empty. -/
def sanitizeSafeChars (name : String) : List Char :=
  if (sanitizedChars name).isEmpty then "tool".data else sanitizedChars name

/-- `sanitizeToolName` from the source (`/^[0-9]/.test(safe)` is a digit test
on the first character). -/
def sanitizeToolName (name : String) : String :=
  if ((sanitizeSafeChars name).head?.map Char.isDigit).getD false then
    "t_" ++ String.mk (sanitizeSafeChars name)
  else String.mk (sanitizeSafeChars name)

/-- The JS template `` `${base}_${i}` `` used for duplicate disambiguation. -/
def candidateName (base : String) (i : Nat) : String := base ++ "_" ++ strOfNat i

/-- The `while (usedNames.has(candidate))` search of `getOrCreateKiroToolName`.
Erasing the found candidate only serves termination: the erased string can
never equal a later candidate (the numeric suffixes differ), so membership
tests for later candidates are unchanged and the result is the one the JS
loop produces. -/
def freshCandidate (used : List String) (base : String) (i : Nat) : String :=
  if h : candidateName base i ∈ used then
    freshCandidate (used.erase (candidateName base i)) base (i + 1)
  else candidateName base i
termination_by used.length
decreasing_by
  exact List.length_erase_of_mem h ▸ Nat.pred_lt (Nat.not_eq_zero_of_lt
    (List.length_pos_of_mem h))

/-- `getOrCreateKiroToolName` from the source; the `Map` and `Set` are
association list and list. -/
def getOrCreateKiroToolName (originalName : String) (toolNameMap : List (String × String))
    (usedNames : List String) : String × List (String × String) × List String :=
  match toolNameMap.find? (fun p => p.1 == originalName) with
  | some p => (p.2, toolNameMap, usedNames)
  | none =>
    let base := sanitizeToolName originalName
    let candidate := if base ∈ usedNames then freshCandidate usedNames base 2 else base
    (candidate, (originalName, candidate) :: toolNameMap, candidate :: usedNames)

/-- The language of the regex `^(t_)?[A-Za-z0-9_]+$`: since `t` and `_` are
themselves word characters and the group is optional, the regex accepts
exactly the non-empty strings of word characters. -/
def validToolName (s : String) : Bool := !s.data.isEmpty && s.data.all isAlnumU

theorem mem_collapseUnd : ∀ l : List Char, ∀ c ∈ collapseUnd l, c ∈ l := by
  intro l
  induction l with
  | nil => intro c h; exact h
  | cons a t ih =>
    intro c h
    cases t with
    | nil => exact h
    | cons b u =>
      rw [collapseUnd] at h
      split at h
      · exact List.mem_cons_of_mem _ (ih c h)
      · rcases List.mem_cons.1 h with h | h
        · subst h; exact List.mem_cons_self _ _
        · exact List.mem_cons_of_mem _ (ih c h)

theorem mem_trimUnd : ∀ l : List Char, ∀ c ∈ trimUnd l, c ∈ l := by
  intro l c h
  unfold trimUnd at h
  rw [List.mem_reverse] at h
  have h1 := (List.dropWhile_sublist (l := (l.dropWhile (· == '_')).reverse)
    (p := (· == '_'))).subset h
  rw [List.mem_reverse] at h1
  exact (List.dropWhile_sublist (l := l) (p := (· == '_'))).subset h1

theorem sanitizedChars_all (name : String) :
    ∀ c ∈ sanitizedChars name, isAlnumU c = true := by
  intro c hc
  unfold sanitizedChars at hc
  have hc2 := mem_collapseUnd _ _ (mem_trimUnd _ _ hc)
  rcases List.mem_map.1 hc2 with ⟨d, _, hd⟩
  by_cases h : isAlnumU d
  · rw [if_pos h] at hd; subst hd; exact h
  · rw [if_neg h] at hd; subst hd; rfl

theorem sanitizeToolName_valid (name : String) :
    validToolName (sanitizeToolName name) = true := by
  unfold sanitizeToolName sanitizeSafeChars
  by_cases hempty : (sanitizedChars name).isEmpty
  · rw [if_pos hempty]
    decide
  · rw [if_neg hempty]
    obtain ⟨a, t, hat⟩ : ∃ a t, sanitizedChars name = a :: t := by
      cases h : sanitizedChars name with
      | nil => rw [h] at hempty; simp [List.isEmpty] at hempty
      | cons a t => exact ⟨a, t, rfl⟩
    have htrAll := sanitizedChars_all name
    rw [hat] at htrAll ⊢
    by_cases hd : a.isDigit
    · rw [if_pos (by simp [hd])]
      unfold validToolName
      rw [Bool.and_eq_true]
      refine ⟨rfl, ?_⟩
      rw [List.all_eq_true]
      intro c hc
      have : ("t_" ++ String.mk (a :: t)).data = 't' :: '_' :: a :: t := rfl
      rw [this] at hc
      rcases List.mem_cons.1 hc with h | hc
      · subst h; rfl
      rcases List.mem_cons.1 hc with h | hc
      · subst h; rfl
      · exact htrAll c hc
    · rw [if_neg (by simp [hd])]
      unfold validToolName
      rw [Bool.and_eq_true]
      refine ⟨rfl, ?_⟩
      rw [List.all_eq_true]
      intro c hc
      exact htrAll c hc

theorem digitCharOf_alnum (d : Nat) : isAlnumU (digitCharOf d) = true := by
  unfold digitCharOf
  split <;> decide

theorem strOfNat_all_alnum (n : Nat) : (strOfNat n).data.all isAlnumU = true := by
  unfold strOfNat
  split
  · decide
  · rw [List.all_eq_true]
    intro c hc
    simp only [] at hc
    rw [List.mem_reverse] at hc
    rcases List.mem_map.1 hc with ⟨d, _, hd⟩
    subst hd
    exact digitCharOf_alnum d

theorem candidateName_data (base : String) (i : Nat) :
    (candidateName base i).data = (base.data ++ ['_']) ++ (strOfNat i).data := rfl

theorem candidateName_valid (base : String) (i : Nat) (h : validToolName base = true) :
    validToolName (candidateName base i) = true := by
  unfold validToolName at h ⊢
  rw [Bool.and_eq_true] at h
  obtain ⟨a, t, hb⟩ : ∃ a t, base.data = a :: t := by
    cases hbd : base.data with
    | nil => rw [hbd] at h; simp at h
    | cons a t => exact ⟨a, t, rfl⟩
  rw [Bool.and_eq_true]
  constructor
  · rw [candidateName_data, hb]
    rfl
  · rw [List.all_eq_true]
    intro c hc
    rw [candidateName_data] at hc
    rcases List.mem_append.1 hc with hc | hc
    · rcases List.mem_append.1 hc with hc | hc
      · exact List.all_eq_true.1 h.2 c hc
      · rcases List.mem_singleton.1 hc with rfl
        rfl
    · exact List.all_eq_true.1 (strOfNat_all_alnum i) c hc

theorem candidateName_inj_idx (base : String) (i j : Nat)
    (h : candidateName base i = candidateName base j) : i = j := by
  have hd : (base.data ++ ['_']) ++ (strOfNat i).data =
      (base.data ++ ['_']) ++ (strOfNat j).data := by
    rw [← candidateName_data, ← candidateName_data, h]
  have h2 := List.append_cancel_left hd
  have : strOfNat i = strOfNat j := by
    have := congrArg String.mk h2
    rwa [strMk_data, strMk_data] at this
  exact strOfNat_inj _ _ this

theorem freshCandidate_spec : ∀ (n : Nat) (used : List String), used.length ≤ n →
    ∀ base i, freshCandidate used base i ∉ used ∧
      ∃ j, i ≤ j ∧ freshCandidate used base i = candidateName base j := by
  intro n
  induction n with
  | zero =>
    intro used hlen base i
    have : used = [] := List.eq_nil_of_length_eq_zero (Nat.le_zero.1 hlen)
    subst this
    rw [freshCandidate, dif_neg (List.not_mem_nil _)]
    exact ⟨List.not_mem_nil _, i, Nat.le_refl i, rfl⟩
  | succ n ih =>
    intro used hlen base i
    rw [freshCandidate]
    by_cases h : candidateName base i ∈ used
    · rw [dif_pos h]
      have hpos := List.length_pos_of_mem h
      have hlen2 : (used.erase (candidateName base i)).length ≤ n := by
        rw [List.length_erase_of_mem h]; omega
      obtain ⟨hnotin, j, hj, heq⟩ := ih _ hlen2 base (i + 1)
      refine ⟨?_, j, by omega, heq⟩
      intro hmem
      by_cases hrc : freshCandidate (used.erase (candidateName base i)) base (i + 1) =
          candidateName base i
      · rw [heq] at hrc
        have := candidateName_inj_idx base j i hrc
        omega
      · exact hnotin ((List.mem_erase_of_ne hrc).2 hmem)
    · rw [dif_neg h]
      exact ⟨h, i, Nat.le_refl i, rfl⟩

/-- The invariant the translator maintains for `(toolNameMap, usedNames)`:
the map's values lie in the used set, distinct original names get distinct
upstream names, and every used name is in the regex language. -/
def ToolNamesInv (m : List (String × String)) (used : List String) : Prop :=
  (∀ p ∈ m, p.2 ∈ used) ∧
  (∀ p ∈ m, ∀ q ∈ m, p.2 = q.2 → p.1 = q.1) ∧
  (∀ s ∈ used, validToolName s = true)

theorem getOrCreateKiroToolName_inv (orig : String) (m : List (String × String))
    (used : List String) (h : ToolNamesInv m used) :
    validToolName (getOrCreateKiroToolName orig m used).1 = true ∧
    ToolNamesInv (getOrCreateKiroToolName orig m used).2.1
      (getOrCreateKiroToolName orig m used).2.2 := by
  obtain ⟨hrange, hinj, hvalid⟩ := h
  unfold getOrCreateKiroToolName
  cases hf : m.find? (fun p => p.1 == orig) with
  | some p =>
    have hp := List.mem_of_find?_eq_some hf
    exact ⟨hvalid p.2 (hrange p hp), hrange, hinj, hvalid⟩
  | none =>
    have hcand : (if sanitizeToolName orig ∈ used then
          freshCandidate used (sanitizeToolName orig) 2
        else sanitizeToolName orig) ∉ used ∧
        validToolName (if sanitizeToolName orig ∈ used then
          freshCandidate used (sanitizeToolName orig) 2
        else sanitizeToolName orig) = true := by
      by_cases hb : sanitizeToolName orig ∈ used
      · rw [if_pos hb]
        obtain ⟨hnotin, j, _, heq⟩ :=
          freshCandidate_spec used.length used (Nat.le_refl _) (sanitizeToolName orig) 2
        exact ⟨hnotin, heq ▸ candidateName_valid _ j (sanitizeToolName_valid orig)⟩
      · rw [if_neg hb]
        exact ⟨hb, sanitizeToolName_valid orig⟩
    refine ⟨hcand.2, ?_, ?_, ?_⟩
    · intro p hp
      rcases List.mem_cons.1 hp with h | h
      · subst h; exact List.mem_cons_self _ _
      · exact List.mem_cons_of_mem _ (hrange p h)
    · intro p hp q hq hpq
      rcases List.mem_cons.1 hp with h1 | h1 <;> rcases List.mem_cons.1 hq with h2 | h2
      · rw [h1, h2]
      · exfalso
        subst h1
        simp only [] at hpq
        exact hcand.1 (hpq ▸ hrange q h2)
      · exfalso
        subst h2
        simp only [] at hpq
        exact hcand.1 (hpq.symm ▸ hrange p h1)
      · exact hinj p h1 q h2 hpq
    · intro s hs
      rcases List.mem_cons.1 hs with h | h
      · subst h; exact hcand.2
      · exact hvalid s h

/-! ### Foreign message normalization (`normalizeMessageList`) -/

/-- A normalized foreign message (`{role, content}` as pushed by
`normalizeMessageList`). -/
structure NormMsg where
  role : String
  content : JVal

/-- Property access `v.k` for an arbitrary value (non-objects have no
properties; JS arrays are objects but the properties this code reads are
absent on them). -/
def jGetField (v : JVal) (k : String) : JVal :=
  match v with
  | .obj fs => getField fs k
  | _ => .null

/-- One iteration of the `normalizeMessageList` loop body: skip falsy and
non-object entries, normalize the role with
`String(raw.role || '').trim().toLowerCase()`, keep only `user`/`assistant`. -/
def messageOfRaw (raw : JVal) : Option NormMsg :=
  match raw with
  | .obj fs =>
    let role := jsToLower (jsTrim
      (if jsTruthy (getField fs "role") then jValToString (getField fs "role") else ""))
    if role = "user" ∨ role = "assistant" then some ⟨role, getField fs "content"⟩
    else none
  | _ => none

/-- The `for` loop of `normalizeMessageList`: push valid messages, `break`
once 200 are collected. `n` is the number already collected. -/
def normalizeMessageListGo : List JVal → Nat → List NormMsg
  | [], _ => []
  | raw :: rest, n =>
    match messageOfRaw raw with
    | none => normalizeMessageListGo rest n
    | some msg => if n + 1 ≥ 200 then [msg] else msg :: normalizeMessageListGo rest (n + 1)

/-- `normalizeMessageList` from the source (non-arrays yield `[]`). -/
def normalizeMessageList : JVal → List NormMsg
  | .arr raws => normalizeMessageListGo raws 0
  | _ => []

/-! ### Content block normalization and extraction -/

/-- `normalizeContentBlocks` from the source. Array items that are `null`
are dropped, strings become text blocks, objects (JS arrays included) pass
through, other scalars become text blocks via `String(item)`. -/
def normalizeContentBlocks : JVal → List JVal
  | .null => []
  | .str s => [.obj [("type", .str "text"), ("text", .str s)]]
  | .arr items => items.filterMap (fun it =>
      match it with
      | .null => none
      | .str s => some (.obj [("type", .str "text"), ("text", .str s)])
      | .obj fs => some (.obj fs)
      | .arr xs => some (.arr xs)
      | other => some (.obj [("type", .str "text"), ("text", .str (jValToString other))]))
  | .obj fs => [.obj fs]
  | other => [.obj [("type", .str "text"), ("text", .str (jValToString other))]]

/-- The character class kept by `replace(/[^\w\-:.]/g, '_')`. -/
def toolUseIdChar (c : Char) : Char :=
  if isAlnumU c || c == '-' || c == ':' || c == '.' then c else '_'

/-- `normalizeToolUseId` from the source. -/
def normalizeToolUseId (v : JVal) (fallback : String) : String :=
  if jsTrim (coerceStringJ v "") = "" then fallback
  else jsOrStr
    (jsTake (String.mk ((jsTrim (coerceStringJ v "")).data.map toolUseIdChar)) 128)
    fallback

/-- `extractSystemContent` from the source. -/
def extractSystemContent (system : JVal) : String :=
  if jsTruthy system = false then ""
  else match system with
  | .str s => s
  | .arr xs => joinWith "\n" ((extractTextList xs).filter (fun s => s ≠ ""))
  | .obj fs => extractTextFromAny (.obj fs)
  | _ => ""

/-- `isUnsupportedTool` from the source. -/
def isUnsupportedTool (name : JVal) : Bool :=
  jsToLower (coerceStringJ name "") == "web_search" ||
  jsToLower (coerceStringJ name "") == "websearch"

/-! ### Tool schema sanitization -/

theorem sizeOf_take_le {α : Type} [SizeOf α] : ∀ (n : Nat) (l : List α),
    sizeOf (l.take n) ≤ sizeOf l := by
  intro n l
  induction l generalizing n with
  | nil => cases n <;> simp [List.take]
  | cons a t ih =>
    cases n with
    | zero => simp [List.take]; omega
    | succ k =>
      rw [List.take_succ_cons]
      simp only [List.cons.sizeOf_spec]
      have := ih k
      omega

/-- Keys skipped by `sanitizeSchemaValue`. -/
def schemaSkipKey (k : String) : Bool :=
  k == "$schema" || k == "$id" || k == "$defs" || k == "definitions" ||
  k == "examples" || k == "example" || k == "deprecated" || k == "readOnly" ||
  k == "writeOnly"

mutual
/-- `sanitizeSchemaValue` from the source; `none` models `undefined`. -/
def sanitizeSchemaValue (v : JVal) (depth : Nat) : Option JVal :=
  if depth > 6 then none
  else match v with
  | .null => none
  | .num n => some (.num n)
  | .bool b => some (.bool b)
  | .str s => some (.str (truncateString s 1024))
  | .arr xs => some (.arr (sanitizeSchemaList (xs.take 32) depth))
  | .obj fs => some (.obj (sanitizeSchemaFields (fs.take 96) depth))
termination_by sizeOf v
decreasing_by
  · have := sizeOf_take_le 32 xs; simp at this ⊢; omega
  · have := sizeOf_take_le 96 fs; simp at this ⊢; omega

def sanitizeSchemaList (xs : List JVal) (depth : Nat) : List JVal :=
  match xs with
  | [] => []
  | x :: rest =>
    match sanitizeSchemaValue x (depth + 1) with
    | none => sanitizeSchemaList rest depth
    | some y => y :: sanitizeSchemaList rest depth
termination_by sizeOf xs
decreasing_by
  all_goals (simp <;> omega)

def sanitizeSchemaFields (fs : List (String × JVal)) (depth : Nat) : List (String × JVal) :=
  match fs with
  | [] => []
  | (k, v) :: rest =>
    if schemaSkipKey k then sanitizeSchemaFields rest depth
    else match sanitizeSchemaValue v (depth + 1) with
      | none => sanitizeSchemaFields rest depth
      | some y =>
        if k == "description" || k == "title" then
          (k, .str (truncateString (coerceStringJ y "") 512)) :: sanitizeSchemaFields rest depth
        else (k, y) :: sanitizeSchemaFields rest depth
termination_by sizeOf fs
decreasing_by
  all_goals (simp <;> omega)
end

/-- `normalizeJsonObject` from the source; `parse` stands for `JSON.parse`
(an external primitive), returning `none` on a parse error. -/
def normalizeJsonObject (parse : String → Option JVal) (v : JVal) (fallback : JVal) : JVal :=
  match v with
  | .null => fallback
  | .str s =>
    match parse s with
    | none => fallback
    | some (.obj fs) => .obj fs
    | some _ => fallback
  | .obj fs => .obj fs
  | _ => fallback

/-- The `{type:'object', properties:{}}` default schema. -/
def defaultToolSchema : JVal :=
  .obj [("type", .str "object"), ("properties", .obj [])]

/-- `buildToolSchema` from the source. -/
def buildToolSchema (parse : String → Option JVal) (inputSchema : JVal) : JVal :=
  match sanitizeSchemaValue (normalizeJsonObject parse (jsOrJ inputSchema (.obj [])) (.obj [])) 0 with
  | none => defaultToolSchema
  | some (.obj []) => defaultToolSchema
  | some (.obj fs) => .obj fs
  | some _ => defaultToolSchema

/-! ### User / assistant content extraction -/

/-- One iteration of the `extractUserContent` block loop, accumulating
`(textParts, toolResults)`. -/
def userBlockStep (acc : List String × List KiroToolResult) (block : JVal) :
    List String × List KiroToolResult :=
  let blockType := jsToLower (coerceStringJ (jGetField block "type") "")
  if blockType = "text" then
    let text := extractTextFromAny (jsNullishOr (jGetField block "text") (jGetField block "content"))
    if text ≠ "" then (acc.1 ++ [text], acc.2) else acc
  else if blockType = "tool_result" then
    let resultContent := extractTextFromAny (jGetField block "content")
    let tuid := normalizeToolUseId
      (jsOrJ (jGetField block "tool_use_id") (jGetField block "toolUseId")) "tool_use"
    let st := if jsTruthy (jGetField block "is_error") then "error" else "success"
    (acc.1, acc.2 ++ [⟨tuid, st, [⟨jsOrStr resultContent "OK"⟩]⟩])
  else if blockType = "thinking" ∨ blockType = "redacted_thinking" then
    let thinkingText := extractTextFromAny
      (jsNullishOr (jGetField block "thinking") (jGetField block "text"))
    if thinkingText ≠ "" then (acc.1 ++ [thinkingText], acc.2) else acc
  else
    let fallbackText := extractTextFromAny block
    if fallbackText ≠ "" then (acc.1 ++ [fallbackText], acc.2) else acc

/-- `extractUserContent` from the source. -/
def extractUserContent (content : JVal) : String × List KiroToolResult :=
  if jsTruthy content = false then ("", [])
  else match content with
  | .str s => (s, [])
  | _ =>
    let res := (normalizeContentBlocks content).foldl userBlockStep ([], [])
    (joinWith "\n" (res.1.filter (fun s => s ≠ "")), res.2)

/-- The mutable state of the `extractAssistantContent` loop. -/
structure AsstState where
  thinking : String
  parts : List String
  uses : List KiroToolUse
  map : List (String × String)
  used : List String

/-- One iteration of the `extractAssistantContent` block loop. -/
def assistantBlockStep (parse : String → Option JVal) (st : AsstState) (block : JVal) :
    AsstState :=
  let blockType := jsToLower (coerceStringJ (jGetField block "type") "")
  if blockType = "thinking" then
    let tx := extractTextFromAny (jsNullishOr (jGetField block "thinking") (jGetField block "text"))
    { st with thinking := st.thinking ++ tx }
  else if blockType = "text" then
    let text := extractTextFromAny (jsNullishOr (jGetField block "text") (jGetField block "content"))
    if text ≠ "" then { st with parts := st.parts ++ [text] } else st
  else if blockType = "tool_use" then
    if isUnsupportedTool (jGetField block "name") then st
    else
      let orig := if jsTruthy (jGetField block "name") then jValToString (jGetField block "name")
        else "tool"
      let r := getOrCreateKiroToolName orig st.map st.used
      let tuid := normalizeToolUseId (jGetField block "id") "tool_use"
      let inp := normalizeJsonObject parse
        (jsOrJ (jGetField block "input")
          (jsOrJ (jGetField block "arguments") (jsOrJ (jGetField block "params") (.obj []))))
        (.obj [])
      { st with uses := st.uses ++ [⟨tuid, r.1, inp⟩], map := r.2.1, used := r.2.2 }
  else if blockType = "redacted_thinking" then st
  else
    let fallbackText := extractTextFromAny block
    if fallbackText ≠ "" then { st with parts := st.parts ++ [fallbackText] } else st

/-- The final text assembly of `extractAssistantContent`. -/
def assistantFinalText (st : AsstState) : String :=
  let base :=
    if st.thinking ≠ "" then
      if st.parts ≠ [] then
        "<thinking>" ++ st.thinking ++ "</thinking>\n\n" ++ joinWith "\n" st.parts
      else "<thinking>" ++ st.thinking ++ "</thinking>"
    else joinWith "\n" st.parts
  if base == "" && !st.uses.isEmpty then "OK" else base

/-- `extractAssistantContent` from the source, threading the tool-name map
and used-name set. -/
def extractAssistantContent (parse : String → Option JVal) (content : JVal)
    (m : List (String × String)) (u : List String) :
    String × List KiroToolUse × List (String × String) × List String :=
  match content with
  | .str s => (s, [], m, u)
  | _ =>
    let st := (normalizeContentBlocks content).foldl (assistantBlockStep parse)
      ⟨"", [], [], m, u⟩
    (assistantFinalText st, st.uses, st.map, st.used)

/-- The `contentParts` / `allToolResults` accumulation over a run of user
messages (used both for the current turn and by `mergeUserMessages`). -/
def currentTurnFold (msgs : List NormMsg) : List String × List KiroToolResult :=
  msgs.foldl (fun acc msg =>
    let r := extractUserContent msg.content
    (acc.1 ++ (if r.1 ≠ "" then [r.1] else []), acc.2 ++ r.2)) ([], [])

/-- `mergeUserMessages` from the source. -/
def mergeUserMessages (msgs : List NormMsg) (modelId : String) : UserInputMessage :=
  let folded := currentTurnFold msgs
  { content := jsOrStr (joinWith "\n" folded.1) (if !folded.2.isEmpty then "continue" else ""),
    modelId := some modelId,
    origin := some "AI_EDITOR",
    userInputMessageContext :=
      if !folded.2.isEmpty then some ⟨none, some folded.2⟩ else none }

/-! ### `convertRequest` -/

/-- A foreign (Anthropic-schema) request; absent fields are `.null`. The model
string itself is resolved to `modelId` by an external database lookup
(`mapModel`), so `convertRequest` below takes the resolved id as a parameter. -/
structure AnthropicRequest where
  messages : JVal
  system : JVal
  tools : JVal
  tool_choice : JVal
  thinking : JVal

/-- The trailing run of `user` messages (the source's backward `while` loop
from the tail computes exactly this run; `currentStart` is its start index). -/
def currentUserMessages (msgs : List NormMsg) : List NormMsg :=
  (msgs.reverse.takeWhile (fun m => m.role == "user")).reverse

def currentStart (msgs : List NormMsg) : Nat :=
  msgs.length - (currentUserMessages msgs).length

/-- `endsWithAssistant` from the source. -/
def endsWithAssistant (msgs : List NormMsg) : Bool :=
  (currentUserMessages msgs).isEmpty && !msgs.isEmpty &&
    ((msgs.getLast?.map (fun m => m.role == "assistant")).getD false)

/-- The `thinkingPrefix` computation (`budget_tokens || 10000`, rendered with
a JS template string). -/
def thinkingDirective (thinking : JVal) : Option String :=
  if jsTruthy thinking &&
      (match jGetField thinking "type" with | .str s => s == "enabled" | _ => false) then
    some ("<thinking_mode>enabled</thinking_mode><max_thinking_length>" ++
      jValToString (jsOrJ (jGetField thinking "budget_tokens") (.num 10000)) ++
      "</max_thinking_length>")
  else none

/-- The system-prompt (or thinking-only) leading history pair. When the
system text is truthy but extracts to the empty string, nothing is pushed
(and in that case the thinking directive is dropped too, as in the source). -/
def systemHistory (modelId : String) (system : JVal) (tp : Option String) :
    List HistoryEntry :=
  if jsTruthy system then
    let sc := extractSystemContent system
    if sc ≠ "" then
      let finalContent := match tp with
        | some p =>
          if jsIncludes sc "<thinking_mode>" || jsIncludes sc "<max_thinking_length>" then sc
          else p ++ "\n" ++ sc
        | none => sc
      [.user ⟨finalContent, some modelId, some "AI_EDITOR", none⟩,
       .assistant ⟨"I will follow these instructions.", none⟩]
    else []
  else match tp with
    | some p =>
      [.user ⟨p, some modelId, some "AI_EDITOR", none⟩,
       .assistant ⟨"I will follow these instructions.", none⟩]
    | none => []

/-- The history-building loop of `convertRequest`: buffer consecutive user
messages, flush them merged when an assistant message arrives. Returns the
history, the unflushed buffer, and the threaded tool-name map and set. -/
def buildHistory (parse : String → Option JVal) (modelId : String) :
    List NormMsg → List HistoryEntry → List NormMsg → List (String × String) →
    List String → List HistoryEntry × List NormMsg × List (String × String) × List String
  | [], hist, buf, m, u => (hist, buf, m, u)
  | msg :: rest, hist, buf, m, u =>
    if msg.role == "user" then
      buildHistory parse modelId rest hist (buf ++ [msg]) m u
    else if msg.role == "assistant" then
      let hist1 := if !buf.isEmpty then hist ++ [.user (mergeUserMessages buf modelId)] else hist
      let r := extractAssistantContent parse msg.content m u
      let assistantMsg : AssistantResponseMessage :=
        ⟨r.1, if !r.2.1.isEmpty then some r.2.1 else none⟩
      buildHistory parse modelId rest (hist1 ++ [.assistant assistantMsg]) [] r.2.2.1 r.2.2.2
    else
      buildHistory parse modelId rest hist buf m u

/-- One tool definition's translation (`t` is truthy and object-like). -/
def buildToolStep (parse : String → Option JVal)
    (acc : List KiroTool × List (String × String) × List String) (t : JVal) :
    List KiroTool × List (String × String) × List String :=
  if isUnsupportedTool (jsOrJ (jGetField t "name") (.str "")) then acc
  else
    let orig := if jsTruthy (jGetField t "name") then jValToString (jGetField t "name")
      else "tool"
    let r := getOrCreateKiroToolName orig acc.2.1 acc.2.2
    let desc := truncateString (coerceStringJ (jsOrJ (jGetField t "description") (.str "")) "") 2000
    let schema := buildToolSchema parse (jsOrJ (jGetField t "input_schema") (.obj []))
    (acc.1 ++ [⟨⟨r.1, desc, schema⟩⟩], r.2.1, r.2.2)

/-- The `tools` construction of `convertRequest` (filter falsy/non-objects,
drop web-search variants, sanitize names, truncate descriptions, sanitize
schemas), threading the tool-name map and set. JS arrays pass the
`typeof t === 'object'` filter, so they are processed like field-less
objects. -/
def buildToolsList (parse : String → Option JVal) (rawTools : JVal)
    (m : List (String × String)) (u : List String) :
    List KiroTool × List (String × String) × List String :=
  match rawTools with
  | .arr ts =>
    ts.foldl (fun acc t =>
      match t with
      | .obj _ => buildToolStep parse acc t
      | .arr _ => buildToolStep parse acc t
      | _ => acc) ([], m, u)
  | _ => ([], m, u)

/-- The `chatTriggerType` computation of `convertRequest`: `AUTO` iff the
foreign `tools` value is a non-empty array, `tool_choice` is truthy and its
`type` is the string `any` or `tool`. -/
def computeChatTriggerType (rawTools toolChoice : JVal) : String :=
  if (match rawTools with | .arr ts => !ts.isEmpty | _ => false) &&
      jsTruthy toolChoice &&
      (match jGetField toolChoice "type" with | .str s => s == "any" || s == "tool" | _ => false)
  then "AUTO" else "MANUAL"

/-- The current-turn text and tool results (`endsWithAssistant` forces the
literal `continue`; otherwise the joined non-empty texts with `continue` as
the empty fallback). -/
def currentMessageOut (msgs : List NormMsg) : String × List KiroToolResult :=
  if endsWithAssistant msgs then ("continue", [])
  else
    let folded := currentTurnFold (currentUserMessages msgs)
    (jsOrStr (joinWith "\n" folded.1) "continue", folded.2)

/-- `convertRequest` from the source. `parse` models `JSON.parse`;
`modelId` is the database-resolved model; `profileArn` comes from the token
manager's credentials; `conversationId` / `agentContinuationId` are the fresh
`uuidv4()` draws. Returns `none` where the source throws (empty message
list), and otherwise the request plus the final tool-name map. -/
def convertRequest (parse : String → Option JVal) (modelId : String)
    (profileArn : Option String) (conversationId agentContinuationId : String)
    (req : AnthropicRequest) : Option (KiroRequest × List (String × String)) :=
  let messages := normalizeMessageList req.messages
  if messages.isEmpty then none
  else
    let tp := thinkingDirective req.thinking
    let hist0 := systemHistory modelId req.system tp
    let histPart := if endsWithAssistant messages then messages
      else messages.take (currentStart messages)
    let hb := buildHistory parse modelId histPart hist0 [] [] []
    let hist2 := if !hb.2.1.isEmpty then
        hb.1 ++ [.user (mergeUserMessages hb.2.1 modelId), .assistant ⟨"OK", none⟩]
      else hb.1
    let currentOut := currentMessageOut messages
    let tl := buildToolsList parse req.tools hb.2.2.1 hb.2.2.2
    let ctx : Option UserInputMessageContext :=
      if !tl.1.isEmpty || !currentOut.2.isEmpty then
        some ⟨if !tl.1.isEmpty then some tl.1 else none,
              if !currentOut.2.isEmpty then some currentOut.2 else none⟩
      else none
    let state : ConversationState :=
      ⟨agentContinuationId, "vibe", computeChatTriggerType req.tools req.tool_choice,
       ⟨currentOut.1, some modelId, some "AI_EDITOR", ctx⟩, conversationId, hist2⟩
    some (⟨state, profileArn.bind (fun p => if p = "" then none else some p)⟩, tl.2.1)

/-! ### Degradation retry engine: fallback modes and the cloned request -/

inductive FallbackMode where
  | primary
  | compactTools
  | noTools
  | trimHistory
  | minimalHistory
  | singleTurn
deriving DecidableEq

mutual
/-- The `JSON.parse(JSON.stringify(...))` deep clone, modelled as a structural
deep copy (the values here are finite trees: serialization cannot encounter
cycles, so the `catch` branch of `buildFallbackRequest` is unreachable). -/
def deepCopyJVal : JVal → JVal
  | .null => .null
  | .bool b => .bool b
  | .num n => .num n
  | .str s => .str s
  | .arr xs => .arr (deepCopyJValList xs)
  | .obj fs => .obj (deepCopyJValFields fs)
termination_by v => sizeOf v
decreasing_by
  all_goals (simp <;> omega)

def deepCopyJValList : List JVal → List JVal
  | [] => []
  | x :: xs => deepCopyJVal x :: deepCopyJValList xs
termination_by l => sizeOf l
decreasing_by
  all_goals (simp <;> omega)

def deepCopyJValFields : List (String × JVal) → List (String × JVal)
  | [] => []
  | (k, v) :: fs => (k, deepCopyJVal v) :: deepCopyJValFields fs
termination_by l => sizeOf l
decreasing_by
  all_goals (simp <;> omega)
end

theorem deepCopyJVal_eq_all : ∀ n : Nat,
    (∀ v : JVal, sizeOf v ≤ n → deepCopyJVal v = v) ∧
    (∀ l : List JVal, sizeOf l ≤ n → deepCopyJValList l = l) ∧
    (∀ fs : List (String × JVal), sizeOf fs ≤ n → deepCopyJValFields fs = fs) := by
  intro n
  induction n using Nat.strong_induction_on with
  | _ n ih =>
    refine ⟨?_, ?_, ?_⟩
    · intro v hv
      cases v with
      | null => rw [deepCopyJVal]
      | bool b => rw [deepCopyJVal]
      | num m => rw [deepCopyJVal]
      | str s => rw [deepCopyJVal]
      | arr xs =>
        rw [deepCopyJVal]
        have hlt : sizeOf xs < n := by
          have : sizeOf (JVal.arr xs) = 1 + sizeOf xs := by simp
          omega
        rw [(ih (sizeOf xs) hlt).2.1 xs (Nat.le_refl _)]
      | obj fs =>
        rw [deepCopyJVal]
        have hlt : sizeOf fs < n := by
          have : sizeOf (JVal.obj fs) = 1 + sizeOf fs := by simp
          omega
        rw [(ih (sizeOf fs) hlt).2.2 fs (Nat.le_refl _)]
    · intro l hl
      cases l with
      | nil => rw [deepCopyJValList]
      | cons x xs =>
        rw [deepCopyJValList]
        have hx : sizeOf x < n := by
          have : sizeOf (x :: xs) = 1 + sizeOf x + sizeOf xs := by simp
          have hxs : 0 < sizeOf xs := by cases xs <;> simp
          omega
        have hxs : sizeOf xs < n := by
          have : sizeOf (x :: xs) = 1 + sizeOf x + sizeOf xs := by simp
          have hx0 : 0 < sizeOf x := by cases x <;> simp
          omega
        rw [(ih (sizeOf x) hx).1 x (Nat.le_refl _),
          (ih (sizeOf xs) hxs).2.1 xs (Nat.le_refl _)]
    · intro fs hfs
      cases fs with
      | nil => rw [deepCopyJValFields]
      | cons p rest =>
        cases p with
        | mk k v =>
          rw [deepCopyJValFields]
          have hv : sizeOf v < n := by
            have h1 : sizeOf ((k, v) :: rest) = 1 + (1 + sizeOf k + sizeOf v) + sizeOf rest := by
              simp
            have h2 : 0 < sizeOf rest := by cases rest <;> simp
            omega
          have hr : sizeOf rest < n := by
            have h1 : sizeOf ((k, v) :: rest) = 1 + (1 + sizeOf k + sizeOf v) + sizeOf rest := by
              simp
            omega
          rw [(ih (sizeOf v) hv).1 v (Nat.le_refl _),
            (ih (sizeOf rest) hr).2.2 rest (Nat.le_refl _)]

theorem deepCopyJVal_eq (v : JVal) : deepCopyJVal v = v :=
  (deepCopyJVal_eq_all (sizeOf v)).1 v (Nat.le_refl _)

/-- Deep copy of the request tree (continued componentwise). -/
def deepCopyToolResult (r : KiroToolResult) : KiroToolResult :=
  ⟨r.toolUseId, r.status, r.content.map (fun c => ⟨c.text⟩)⟩

def deepCopyTool (t : KiroTool) : KiroTool :=
  ⟨⟨t.toolSpecification.name, t.toolSpecification.description,
    deepCopyJVal t.toolSpecification.inputSchemaJson⟩⟩

def deepCopyCtx (c : UserInputMessageContext) : UserInputMessageContext :=
  ⟨c.tools.map (fun ts => ts.map deepCopyTool),
   c.toolResults.map (fun rs => rs.map deepCopyToolResult)⟩

def deepCopyUserMsg (m : UserInputMessage) : UserInputMessage :=
  ⟨m.content, m.modelId, m.origin, m.userInputMessageContext.map deepCopyCtx⟩

def deepCopyToolUse (t : KiroToolUse) : KiroToolUse :=
  ⟨t.toolUseId, t.name, deepCopyJVal t.input⟩

def deepCopyAsstMsg (m : AssistantResponseMessage) : AssistantResponseMessage :=
  ⟨m.content, m.toolUses.map (fun ts => ts.map deepCopyToolUse)⟩

def deepCopyEntry : HistoryEntry → HistoryEntry
  | .user m => .user (deepCopyUserMsg m)
  | .assistant m => .assistant (deepCopyAsstMsg m)

def deepCopyRequest (r : KiroRequest) : KiroRequest :=
  ⟨⟨r.conversationState.agentContinuationId, r.conversationState.agentTaskType,
    r.conversationState.chatTriggerType,
    deepCopyUserMsg r.conversationState.currentMessage,
    r.conversationState.conversationId,
    r.conversationState.history.map deepCopyEntry⟩,
   r.profileArn⟩

theorem listMap_self {α : Type} (f : α → α) (h : ∀ x, f x = x) :
    ∀ l : List α, l.map f = l := by
  intro l
  induction l with
  | nil => rfl
  | cons x xs ih => simp [h x, ih]

theorem deepCopyToolResult_eq (r : KiroToolResult) : deepCopyToolResult r = r := by
  cases r with
  | mk a b c =>
    unfold deepCopyToolResult
    congr 1
    have : ∀ l : List ToolResultText, l.map (fun c => (⟨c.text⟩ : ToolResultText)) = l := by
      intro l
      induction l with
      | nil => rfl
      | cons x xs ih => cases x; simp [ih]
    exact this c

theorem deepCopyTool_eq (t : KiroTool) : deepCopyTool t = t := by
  cases t with
  | mk spec => cases spec; simp [deepCopyTool, deepCopyJVal_eq]

theorem deepCopyCtx_eq (c : UserInputMessageContext) : deepCopyCtx c = c := by
  cases c with
  | mk tools results =>
    unfold deepCopyCtx
    congr 1
    · cases tools with
      | none => rfl
      | some ts => simp [listMap_self _ deepCopyTool_eq]
    · cases results with
      | none => rfl
      | some rs => simp [listMap_self _ deepCopyToolResult_eq]

theorem deepCopyUserMsg_eq (m : UserInputMessage) : deepCopyUserMsg m = m := by
  cases m with
  | mk a b c d =>
    unfold deepCopyUserMsg
    congr 1
    cases d with
    | none => rfl
    | some ctx => simp [deepCopyCtx_eq]

theorem deepCopyAsstMsg_eq (m : AssistantResponseMessage) : deepCopyAsstMsg m = m := by
  cases m with
  | mk a b =>
    unfold deepCopyAsstMsg
    congr 1
    cases b with
    | none => rfl
    | some ts =>
      have hone : ∀ t : KiroToolUse, deepCopyToolUse t = t := by
        intro t; cases t; simp [deepCopyToolUse, deepCopyJVal_eq]
      simp [listMap_self _ hone]

theorem deepCopyEntry_eq (e : HistoryEntry) : deepCopyEntry e = e := by
  cases e with
  | user m => simp [deepCopyEntry, deepCopyUserMsg_eq]
  | assistant m => simp [deepCopyEntry, deepCopyAsstMsg_eq]

theorem deepCopyRequest_eq (r : KiroRequest) : deepCopyRequest r = r := by
  cases r with
  | mk state arn =>
    cases state
    simp [deepCopyRequest, deepCopyUserMsg_eq, listMap_self _ deepCopyEntry_eq]

/-! ### Fallback transformations (`buildFallbackRequest` and friends) -/

/-- `shouldRetryImproperlyFormed` from the source. -/
def shouldRetryImproperlyFormed (status : Nat) (responseText : String) : Bool :=
  if status ≠ 400 then false
  else
    jsIncludes (jsToLower responseText) "improperly formed request" ||
    jsIncludes (jsToLower responseText) "malformed" ||
    jsIncludes (jsToLower responseText) "invalid_request_error"

/-- The context edits of `sanitizeHistoryEntryForRetry` (deleted keys become
`none`; an emptied context object is removed). -/
def sanitizeHistoryCtx (mode : FallbackMode) (ctx : UserInputMessageContext) :
    Option UserInputMessageContext :=
  let ctx1 := if mode ≠ .compactTools then { ctx with toolResults := none } else ctx
  let ctx2 := if mode = .noTools ∨ mode = .trimHistory ∨ mode = .minimalHistory ∨
      mode = .singleTurn then { ctx1 with tools := none } else ctx1
  if ctx2.tools.isNone && ctx2.toolResults.isNone then none else some ctx2

/-- `sanitizeHistoryEntryForRetry` from the source. -/
def sanitizeHistoryEntryForRetry (mode : FallbackMode) : HistoryEntry → HistoryEntry
  | .user m =>
    let m1 := { m with content := truncateString m.content 10000 }
    match m1.userInputMessageContext with
    | none => .user m1
    | some ctx => .user { m1 with userInputMessageContext := sanitizeHistoryCtx mode ctx }
  | .assistant m =>
    let m1 := { m with content := truncateString m.content 10000 }
    let m2 := if mode = .trimHistory ∨ mode = .minimalHistory ∨ mode = .singleTurn then
        { m1 with toolUses := none }
      else m1
    .assistant m2

/-- The backward scan of `extractLatestUserContentFromHistory`, written on the
reversed history. -/
def extractLatestGo : List HistoryEntry → String
  | [] => ""
  | e :: rest =>
    match e with
    | .user m =>
      let text := jsTrim m.content
      if text ≠ "" ∧ jsToLower text ≠ "continue" then text else extractLatestGo rest
    | .assistant _ => extractLatestGo rest

/-- `extractLatestUserContentFromHistory` from the source. -/
def extractLatestUserContentFromHistory (history : List HistoryEntry) : String :=
  extractLatestGo history.reverse

/-- JS `option || default` for an optional string field. -/
def jsOptOr (o : Option String) (d : String) : String :=
  match o with
  | some s => if s = "" then d else s
  | none => d

/-- JS truthiness attach of an optional string field (`if (x) out.k = x`). -/
def jsOptAttach (o : Option String) : Option String :=
  o.bind (fun p => if p = "" then none else some p)

/-- `buildSingleTurnRequest` from the source; `u1`, `u2` are the `uuidv4()`
draws for `agentContinuationId` / `conversationId`. -/
def buildSingleTurnRequest (u1 u2 : String) (req : KiroRequest) : KiroRequest :=
  let state := req.conversationState
  let current := state.currentMessage
  let content0 := jsTrim current.content
  let content1 :=
    if content0 = "" ∨ jsToLower content0 = "continue" then
      let latest := extractLatestUserContentFromHistory state.history
      if latest ≠ "" then latest else content0
    else content0
  let content2 := if content1 = "" then "continue" else content1
  ⟨⟨jsOrStr state.agentContinuationId u1,
    jsOrStr state.agentTaskType "vibe",
    "MANUAL",
    ⟨truncateString content2 12000, current.modelId,
     some (jsOptOr current.origin "AI_EDITOR"), none⟩,
    jsOrStr state.conversationId u2,
    []⟩,
   jsOptAttach req.profileArn⟩

/-- The `compact-tools` rewrite of one tool: keep the (string) name
(`coerceString` is the identity there, `|| ''` likewise for the string
description), truncate the description to 256, drop the schema. -/
def fallbackCompactTool (t : KiroTool) : KiroTool :=
  ⟨⟨t.toolSpecification.name, truncateString t.toolSpecification.description 256,
    defaultToolSchema⟩⟩

/-- The context edits of `buildFallbackRequest` on the current message. -/
def fallbackCtx (mode : FallbackMode) (ctx : UserInputMessageContext) :
    Option UserInputMessageContext :=
  let ctx1 := if mode ≠ .compactTools then { ctx with toolResults := none } else ctx
  let ctx2 := if mode = .noTools ∨ mode = .trimHistory ∨ mode = .minimalHistory then
      { ctx1 with tools := none }
    else ctx1
  let ctx3 :=
    if mode = .compactTools then
      match ctx2.tools with
      | some ts => { ctx2 with tools := some ((ts.take 24).map fallbackCompactTool) }
      | none => ctx2
    else ctx2
  if ctx3.tools.isNone && ctx3.toolResults.isNone then none else some ctx3

/-- The current-message edits of `buildFallbackRequest`. -/
def fallbackCurrent (mode : FallbackMode) (m : UserInputMessage) : UserInputMessage :=
  let limit : Nat := if mode = FallbackMode.minimalHistory then 10000 else 20000
  let m1 := { m with content := truncateString m.content limit }
  match m1.userInputMessageContext with
  | none => m1
  | some ctx => { m1 with userInputMessageContext := fallbackCtx mode ctx }

/-- `Array.isArray(ctx.tools) && ctx.tools.length > 0` on the current message. -/
def hasToolsOf (m : UserInputMessage) : Bool :=
  match m.userInputMessageContext with
  | some ctx =>
    match ctx.tools with
    | some ts => !ts.isEmpty
    | none => false
  | none => false

/-- The history edits of `buildFallbackRequest`. -/
def fallbackHistory (mode : FallbackMode) (history : List HistoryEntry) : List HistoryEntry :=
  let h1 := history.map (sanitizeHistoryEntryForRetry mode)
  if mode = .trimHistory then jsSliceLast h1 24
  else if mode = .minimalHistory then jsSliceLast h1 8
  else h1

/-- `buildFallbackRequest` from the source: deep-clone, then either rebuild a
single-turn request or apply the content/context/trigger/history edits to the
clone. -/
def buildFallbackRequest (u1 u2 : String) (baseRequest : KiroRequest)
    (mode : FallbackMode) : KiroRequest :=
  let req := deepCopyRequest baseRequest
  if mode = .singleTurn then buildSingleTurnRequest u1 u2 req
  else
    let state := req.conversationState
    let current := fallbackCurrent mode state.currentMessage
    let trigger := if !hasToolsOf current && state.chatTriggerType == "AUTO" then "MANUAL"
      else state.chatTriggerType
    ⟨⟨state.agentContinuationId, state.agentTaskType, trigger, current,
      state.conversationId, fallbackHistory mode state.history⟩,
     req.profileArn⟩

/-- `buildFallbackRequest` with an explicit view of its argument after the
call: every mutation in the source targets the `JSON.parse(JSON.stringify(...))`
clone (the `catch` path returns the argument untouched), so the second
component — the argument's value when the call returns — is the argument
itself. -/
def buildFallbackRequestTracked (u1 u2 : String) (baseRequest : KiroRequest)
    (mode : FallbackMode) : KiroRequest × KiroRequest :=
  (buildFallbackRequest u1 u2 baseRequest mode, baseRequest)

/-! ### The streamed call's retry loop (`callApiStream`) -/

/-- `getCompatMode` from the source. -/
def getCompatMode (anthropicCompatMode : JVal) : String :=
  let mode := jsToLower (jsTrim (coerceStringJ anthropicCompatMode ""))
  if mode = "strict" ∨ mode = "balanced" ∨ mode = "relaxed" then mode else "strict"

/-- `getFallbackModes` from the source. -/
def getFallbackModes (anthropicCompatMode : JVal) : List FallbackMode :=
  let mode := getCompatMode anthropicCompatMode
  if mode = "strict" then [.primary, .compactTools]
  else if mode = "balanced" then [.primary, .compactTools, .noTools, .trimHistory]
  else [.primary, .compactTools, .noTools, .trimHistory, .minimalHistory, .singleTurn]

/-- The request bodies `callApiStream` precomputes: the translator's output
for `primary`, `buildFallbackRequest` for the rest. -/
def callApiBodies (u1 u2 : String) (kiroReq : KiroRequest) (modes : List FallbackMode) :
    List KiroRequest :=
  modes.map (fun mode =>
    if mode = .primary then kiroReq else buildFallbackRequest u1 u2 kiroReq mode)

/-- One upstream HTTP response (2xx is `ok` for `fetch`). -/
structure UpstreamResponse where
  status : Nat
  text : String
deriving DecidableEq

def respOk (r : UpstreamResponse) : Bool := decide (200 ≤ r.status ∧ r.status < 300)

/-- The data of a thrown `KiroApiError`. -/
structure KiroApiErrorModel where
  status : Nat
  responseText : String
deriving DecidableEq

/-- The attempt loop of `callApiStream` over the per-attempt upstream
responses: return the index of the first `ok` attempt; retry on the next
fallback body iff a further body exists and `shouldRetryImproperlyFormed`
accepts; otherwise surface the failure as a `KiroApiError`. -/
def callApiAttemptLoop : List UpstreamResponse → Except KiroApiErrorModel Nat
  | [] => .error ⟨500, "Kiro API 请求失败（未知错误）"⟩
  | r :: rest =>
    if respOk r then .ok 0
    else if !rest.isEmpty && shouldRetryImproperlyFormed r.status r.text then
      match callApiAttemptLoop rest with
      | .ok n => .ok (n + 1)
      | .error e => .error e
    else .error ⟨r.status, r.text⟩

/-- How many fetches the loop performs. -/
def attemptsMade : List UpstreamResponse → Nat
  | [] => 0
  | r :: rest =>
    if respOk r then 1
    else if !rest.isEmpty && shouldRetryImproperlyFormed r.status r.text then
      1 + attemptsMade rest
    else 1

/-! ### Account pool (shared-file sync, error recording, cooldown) -/

/-- Credentials normalized from a shared-file record
(`normalizeSharedCredentials`). -/
structure SharedCredentials where
  refreshToken : JVal
  accessToken : JVal
  expiresAt : JVal
  machineId : JVal
  clientId : JVal
  clientSecret : JVal
  region : JVal
  authMethod : String

/-- `normalizeSharedCredentials` from the source (camelCase and snake_case
variants, `idc` inference from client credentials or the provider string). -/
def normalizeSharedCredentials (raw : JVal) (defaultRegion : JVal) : SharedCredentials :=
  let refreshToken := jsOrJ (jGetField raw "refreshToken")
    (jsOrJ (jGetField raw "refresh_token") .null)
  let accessToken := jsOrJ (jGetField raw "accessToken")
    (jsOrJ (jGetField raw "access_token") .null)
  let expiresAt := jsOrJ (jGetField raw "expiresAt") (jsOrJ (jGetField raw "expires_at") .null)
  let machineId := jsOrJ (jGetField raw "machineId") (jsOrJ (jGetField raw "machine_id") .null)
  let clientId := jsOrJ (jGetField raw "clientId") (jsOrJ (jGetField raw "client_id") .null)
  let clientSecret := jsOrJ (jGetField raw "clientSecret")
    (jsOrJ (jGetField raw "client_secret") .null)
  let provider := jsToLower (jValToString (jsOrJ (jGetField raw "provider") (.str "")))
  let isIdc := (jsTruthy clientId && jsTruthy clientSecret) ||
    jsIncludes provider "idc" || jsIncludes provider "identity center" ||
    jsIncludes provider "builder"
  ⟨refreshToken, accessToken, expiresAt, machineId, clientId, clientSecret,
   jsOrJ (jGetField raw "region") defaultRegion,
   if isIdc then "idc" else "social"⟩

/-- An in-memory account record. -/
structure Account where
  id : String
  name : String
  credentials : SharedCredentials
  status : String
  requestCount : Nat
  errorCount : Nat
  createdAt : JVal
  lastUsedAt : JVal
  usage : JVal

/-- `mapStatus` from the source. -/
def mapStatus (rawStatus : JVal) : String :=
  let value := jsToLower (jsTrim (jValToString (jsOrJ rawStatus (.str ""))))
  if value = "" then "active"
  else if jsIncludes value "invalid" || jsIncludes value "ban" ||
      jsIncludes value "banned" || jsIncludes value "封禁" ||
      jsIncludes value "失效" then "invalid"
  else if jsIncludes value "disabled" || jsIncludes value "禁用" then "disabled"
  else if jsIncludes value "cooldown" || jsIncludes value "冷却" then "cooldown"
  else "active"

/-- `normalizeSharedAccount` from the source. `now` is the
`new Date().toISOString()` draw, `freshId` the `uuidv4()` draw used when no
id/email/label field is truthy. Records without a truthy refresh token are
rejected. -/
def normalizeSharedAccount (now : String) (freshId : String) (defaultRegion : JVal)
    (raw : JVal) : Option Account :=
  match raw with
  | .obj _ =>
    let credentials := normalizeSharedCredentials raw defaultRegion
    if !jsTruthy credentials.refreshToken then none
    else
      let id := jValToString (jsOrJ (jGetField raw "id")
        (jsOrJ (jGetField raw "email") (jsOrJ (jGetField raw "label") (.str freshId))))
      let nameVal := jsOrJ (jGetField raw "label")
        (jsOrJ (jGetField raw "email") (.str ("共享账号 " ++ jsTake id 6)))
      some { id := id,
             name := jValToString nameVal,
             credentials := credentials,
             status := mapStatus (jGetField raw "status"),
             requestCount := 0,
             errorCount := 0,
             createdAt := jsOrJ (jGetField raw "addedAt") (jsOrJ (jGetField raw "added_at")
               (jsOrJ (jGetField raw "createdAt")
                 (jsOrJ (jGetField raw "created_at") (.str now)))),
             lastUsedAt := jsOrJ (jGetField raw "lastUsedAt")
               (jsOrJ (jGetField raw "last_used_at") .null),
             usage := jsOrJ (jGetField raw "usage") (jsOrJ (jGetField raw "usageData")
               (jsOrJ (jGetField raw "usage_data") .null)) }
  | _ => none

/-- The carry-over of runtime state in `_syncSharedAccountsInner` for a record
whose id is already in the pool. -/
def mergeAccountWithExisting (prev : String → Option Account) (acc : Account) : Account :=
  match prev acc.id with
  | none => acc
  | some ex =>
    { acc with
      requestCount := ex.requestCount,
      errorCount := ex.errorCount,
      lastUsedAt := jsOrJ ex.lastUsedAt acc.lastUsedAt,
      status := if ex.status = "cooldown" then "cooldown" else acc.status }

/-- `Map.set` on the functional account map. -/
def mapInsert (m : String → Option Account) (k : String) (v : Account) :
    String → Option Account :=
  fun x => if x = k then some v else m x

/-- The record loop of `_syncSharedAccountsInner`, building `nextAccounts`.
Each parsed element is paired with the `uuidv4()` draw available to it. The
token-manager map mirrors the account map's keys and is not modelled. -/
def syncSharedAccountsGo (prev : String → Option Account) (now : String)
    (defaultRegion : JVal) :
    List (JVal × String) → (String → Option Account) → (String → Option Account)
  | [], next => next
  | (raw, freshId) :: rest, next =>
    match normalizeSharedAccount now freshId defaultRegion raw with
    | none => syncSharedAccountsGo prev now defaultRegion rest next
    | some acc0 =>
      syncSharedAccountsGo prev now defaultRegion rest
        (mapInsert next (mergeAccountWithExisting prev acc0).id
          (mergeAccountWithExisting prev acc0))

/-- The atomic swap result of a successful `_syncSharedAccountsInner` run on
a parsed array. -/
def syncSharedAccounts (prev : String → Option Account) (now : String)
    (defaultRegion : JVal) (parsed : List (JVal × String)) : String → Option Account :=
  syncSharedAccountsGo prev now defaultRegion parsed (fun _ => none)

/-- `recordError` from the source: increment `errorCount`; on a rate limit,
set `cooldown` and schedule the 5-minute timer (the Bool reports whether the
timer was scheduled). -/
def recordError (accounts : String → Option Account) (id : String) (isRateLimit : Bool) :
    (String → Option Account) × Bool :=
  match accounts id with
  | none => (accounts, false)
  | some a =>
    (mapInsert accounts id
      { a with errorCount := a.errorCount + 1,
               status := if isRateLimit then "cooldown" else a.status },
     isRateLimit)

/-- The body of the `setTimeout` callback scheduled by `recordError`: move
back to `active` iff the account is still in `cooldown` when the timer
fires. -/
def cooldownTimerFire (accounts : String → Option Account) (id : String) :
    String → Option Account :=
  match accounts id with
  | none => accounts
  | some a =>
    if a.status = "cooldown" then mapInsert accounts id { a with status := "active" }
    else accounts

/-- `markInvalid` from the source. -/
def markInvalid (accounts : String → Option Account) (id : String) :
    String → Option Account :=
  match accounts id with
  | none => accounts
  | some a => mapInsert accounts id { a with status := "invalid" }

/-- `recoverCooldown` from the source (the manual recovery path). -/
def recoverCooldown (accounts : String → Option Account) (id : String) :
    String → Option Account :=
  match accounts id with
  | none => accounts
  | some a =>
    if a.status = "cooldown" then mapInsert accounts id { a with status := "active" }
    else accounts

/-! ### Claim theorems -/

theorem shouldRetry_iff (s : Nat) (t : String) :
    shouldRetryImproperlyFormed s t = true ↔
      s = 400 ∧ (jsIncludes (jsToLower t) "improperly formed request" = true ∨
        jsIncludes (jsToLower t) "malformed" = true ∨
        jsIncludes (jsToLower t) "invalid_request_error" = true) := by
  unfold shouldRetryImproperlyFormed
  by_cases h : s ≠ 400
  · simp [h]
  · push_neg at h
    simp [h, Bool.or_eq_true, or_assoc]

theorem attemptsMade_pos (l : List UpstreamResponse) (h : l ≠ []) : 1 ≤ attemptsMade l := by
  cases l with
  | nil => exact absurd rfl h
  | cons r rest =>
    rw [attemptsMade]
    split
    · omega
    · split <;> omega

/-- C2: in the streamed call's attempt loop, when an attempt fails and a
further fallback body exists, a retry fires iff the response status is 400
and the body (lower-cased) contains `improperly formed request`, `malformed`
or `invalid_request_error`; any other failure is surfaced at once as a
`KiroApiError` carrying that status and body, with no further attempt. -/
theorem claimC2_retry_condition (r : UpstreamResponse) (rest : List UpstreamResponse)
    (hok : respOk r = false) (hnext : rest ≠ []) :
    (1 < attemptsMade (r :: rest) ↔
      r.status = 400 ∧ (jsIncludes (jsToLower r.text) "improperly formed request" = true ∨
        jsIncludes (jsToLower r.text) "malformed" = true ∨
        jsIncludes (jsToLower r.text) "invalid_request_error" = true)) ∧
    (¬(r.status = 400 ∧ (jsIncludes (jsToLower r.text) "improperly formed request" = true ∨
        jsIncludes (jsToLower r.text) "malformed" = true ∨
        jsIncludes (jsToLower r.text) "invalid_request_error" = true)) →
      callApiAttemptLoop (r :: rest) = .error ⟨r.status, r.text⟩ ∧
      attemptsMade (r :: rest) = 1) := by
  have hne : (!rest.isEmpty) = true := by
    cases rest with
    | nil => exact absurd rfl hnext
    | cons a b => rfl
  constructor
  · rw [attemptsMade]
    rw [if_neg (by simp [hok])]
    by_cases hretry : shouldRetryImproperlyFormed r.status r.text = true
    · rw [if_pos (by simp [hne, hretry])]
      have := attemptsMade_pos rest hnext
      constructor
      · intro _
        exact (shouldRetry_iff r.status r.text).1 hretry
      · intro _
        omega
    · rw [if_neg (by simp [hne]; simpa using hretry)]
      constructor
      · omega
      · intro hc
        exact absurd ((shouldRetry_iff r.status r.text).2 hc) hretry
  · intro hc
    have hretry : shouldRetryImproperlyFormed r.status r.text = false := by
      by_cases h : shouldRetryImproperlyFormed r.status r.text = true
      · exact absurd ((shouldRetry_iff r.status r.text).1 h) hc
      · simpa using h
    constructor
    · rw [callApiAttemptLoop]
      rw [if_neg (by simp [hok])]
      rw [if_neg (by simp [hretry])]
    · rw [attemptsMade]
      rw [if_neg (by simp [hok])]
      rw [if_neg (by simp [hretry])]

theorem claimC2_retry_condition_witness :
    respOk ⟨429, "rate limited"⟩ = false ∧ ([⟨200, ""⟩] : List UpstreamResponse) ≠ [] ∧
    (¬((429 : Nat) = 400 ∧
        (jsIncludes (jsToLower "rate limited") "improperly formed request" = true ∨
         jsIncludes (jsToLower "rate limited") "malformed" = true ∨
         jsIncludes (jsToLower "rate limited") "invalid_request_error" = true)) →
      callApiAttemptLoop [⟨429, "rate limited"⟩, ⟨200, ""⟩] = .error ⟨429, "rate limited"⟩ ∧
      attemptsMade [⟨429, "rate limited"⟩, ⟨200, ""⟩] = 1) :=
  ⟨by decide, by simp,
   (claimC2_retry_condition ⟨429, "rate limited"⟩ [⟨200, ""⟩] (by decide) (by simp)).2⟩

/-- C6: for an account present in the pool, `recordError` increments its
error count by exactly one; when the error is a rate limit it moves the
account to `cooldown` and schedules the 5-minute timer, whose callback moves
the account back to `active` iff it is still in `cooldown` when it fires —
a `markInvalid` or a manual `recoverCooldown` in between short-circuits the
scheduled transition. -/
theorem claimC6_recordError_cooldown (accounts : String → Option Account) (id : String)
    (a : Account) (isRateLimit : Bool) (h : accounts id = some a) :
    ((recordError accounts id isRateLimit).1 id =
      some { a with errorCount := a.errorCount + 1,
                    status := if isRateLimit then "cooldown" else a.status }) ∧
    ((recordError accounts id isRateLimit).2 = isRateLimit) ∧
    (∀ (accounts2 : String → Option Account) (b : Account), accounts2 id = some b →
      (cooldownTimerFire accounts2 id) id =
        some (if b.status = "cooldown" then { b with status := "active" } else b)) ∧
    ((cooldownTimerFire (markInvalid (recordError accounts id isRateLimit).1 id) id) id =
      some { a with errorCount := a.errorCount + 1, status := "invalid" }) ∧
    (isRateLimit = true →
      (cooldownTimerFire (recoverCooldown (recordError accounts id isRateLimit).1 id) id) id =
        some { a with errorCount := a.errorCount + 1, status := "active" }) := by
  have hins : ∀ (m : String → Option Account) (k : String) (v : Account),
      mapInsert m k v k = some v := by
    intro m k v; simp [mapInsert]
  have hrecEq : recordError accounts id isRateLimit =
      (mapInsert accounts id
        { a with errorCount := a.errorCount + 1,
                 status := if isRateLimit then "cooldown" else a.status }, isRateLimit) := by
    unfold recordError
    rw [h]
  have hrec : (recordError accounts id isRateLimit).1 id =
      some { a with errorCount := a.errorCount + 1,
                    status := if isRateLimit then "cooldown" else a.status } := by
    rw [hrecEq]
    exact hins _ _ _
  have hfire : ∀ (m : String → Option Account) (k : String) (b : Account), m k = some b →
      cooldownTimerFire m k =
        (if b.status = "cooldown" then mapInsert m k { b with status := "active" } else m) := by
    intro m k b hb
    unfold cooldownTimerFire
    rw [hb]
  refine ⟨hrec, ?_, ?_, ?_, ?_⟩
  · rw [hrecEq]
  · intro accounts2 b hb
    rw [hfire accounts2 id b hb]
    by_cases hcool : b.status = "cooldown"
    · rw [if_pos hcool, if_pos hcool]
      exact hins _ _ _
    · rw [if_neg hcool, if_neg hcool]
      exact hb
  · have hmi : markInvalid (recordError accounts id isRateLimit).1 id =
        mapInsert (recordError accounts id isRateLimit).1 id
          { a with errorCount := a.errorCount + 1, status := "invalid" } := by
      unfold markInvalid
      rw [hrec]
    rw [hmi]
    rw [hfire _ id _ (hins _ _ _)]
    rw [if_neg (by simp)]
    exact hins _ _ _
  · intro hrl
    subst hrl
    have hrec2 : (recordError accounts id true).1 id =
        some { a with errorCount := a.errorCount + 1, status := "cooldown" } := by
      simpa using hrec
    have hrc : recoverCooldown (recordError accounts id true).1 id =
        mapInsert (recordError accounts id true).1 id
          { a with errorCount := a.errorCount + 1, status := "active" } := by
      unfold recoverCooldown
      rw [hrec2]
      simp
    rw [hrc]
    rw [hfire _ id _ (hins _ _ _)]
    rw [if_neg (by simp)]
    exact hins _ _ _

/-- A concrete single-account pool used by the C6 witness. -/
def acct1 : Account :=
  ⟨"acc1", "n", ⟨.str "rt", .null, .null, .null, .null, .null, .null, "social"⟩,
   "active", 3, 1, .null, .null, .null⟩

def pool1 : String → Option Account :=
  fun x => if x = "acc1" then some acct1 else none

theorem claimC6_recordError_cooldown_witness :
    pool1 "acc1" = some acct1 ∧ (recordError pool1 "acc1" true).2 = true :=
  ⟨by simp [pool1], (claimC6_recordError_cooldown pool1 "acc1" acct1 true
    (by simp [pool1])).2.1⟩

/-- C10: `buildFallbackRequest` leaves its argument untouched: all edits
target the `JSON.parse(JSON.stringify(...))` clone, the clone preserves the
argument's value exactly (`deepCopyRequest base = base`), and the tracked
variant — which reports the argument's value when the call returns — returns
it deeply equal to its value before the call, so the primary body and
earlier fallback bodies are unaffected by constructing later ones. -/
theorem claimC10_buildFallbackRequest_no_mutation (u1 u2 : String) (base : KiroRequest)
    (mode : FallbackMode) :
    (buildFallbackRequestTracked u1 u2 base mode).2 = base ∧
    deepCopyRequest base = base ∧
    (buildFallbackRequestTracked u1 u2 base mode).1 = buildFallbackRequest u1 u2 base mode :=
  ⟨rfl, deepCopyRequest_eq base, rfl⟩

theorem normalizeMessageListGo_eq_take : ∀ (raws : List JVal) (n : Nat), n < 200 →
    normalizeMessageListGo raws n = (raws.filterMap messageOfRaw).take (200 - n) := by
  intro raws
  induction raws with
  | nil => intro n _; simp [normalizeMessageListGo]
  | cons raw rest ih =>
    intro n hn
    rw [normalizeMessageListGo]
    cases hmr : messageOfRaw raw with
    | none =>
      rw [List.filterMap_cons_none hmr]
      exact ih n hn
    | some msg =>
      rw [List.filterMap_cons_some hmr]
      dsimp only
      by_cases hbreak : n + 1 ≥ 200
      · rw [if_pos hbreak]
        have h1 : 200 - n = 1 := by omega
        rw [h1, List.take_succ_cons, List.take_zero]
      · rw [if_neg hbreak]
        have h2 : 200 - n = (200 - (n + 1)) + 1 := by omega
        rw [h2, List.take_succ_cons, ih (n + 1) (by omega)]

/-- The raw messages used to exhibit the C1 truncation direction. -/
def uaRaw : JVal := .obj [("role", .str "user"), ("content", .str "a")]

def ubRaw : JVal := .obj [("role", .str "user"), ("content", .str "b")]

def msgs201 : JVal := .arr (List.replicate 200 uaRaw ++ [ubRaw])

theorem messageOfRaw_uaRaw : messageOfRaw uaRaw = some ⟨"user", .str "a"⟩ := by
  simp [messageOfRaw, uaRaw, getField, List.find?, jValToString, jsTruthy]
  constructor
  · decide
  · rfl

theorem messageOfRaw_ubRaw : messageOfRaw ubRaw = some ⟨"user", .str "b"⟩ := by
  simp [messageOfRaw, ubRaw, getField, List.find?, jValToString, jsTruthy]
  constructor
  · decide
  · rfl

theorem filterMap_replicate_some {α β : Type} (f : α → Option β) (x : α) (y : β)
    (h : f x = some y) : ∀ n, (List.replicate n x).filterMap f = List.replicate n y := by
  intro n
  induction n with
  | zero => rfl
  | succ k ih =>
    rw [List.replicate_succ, List.replicate_succ, List.filterMap_cons_some h, ih]

/-- C1: `normalizeMessageList` keeps only `user`/`assistant` messages and caps
the list — but at the FIRST 200 kept messages (push-then-break), not the last
200: on 201 user messages the final (newest) message is the one dropped,
contradicting the claim that exactly the last 200 are considered and the
first is dropped. -/
theorem claimC1_normalizeMessageList_keeps_first_200 :
    (∀ raws : List JVal,
      normalizeMessageList (.arr raws) = (raws.filterMap messageOfRaw).take 200) ∧
    normalizeMessageList msgs201 = List.replicate 200 ⟨"user", .str "a"⟩ ∧
    (⟨"user", .str "b"⟩ : NormMsg) ∉ normalizeMessageList msgs201 := by
  have hgen : ∀ raws : List JVal,
      normalizeMessageList (.arr raws) = (raws.filterMap messageOfRaw).take 200 := by
    intro raws
    rw [normalizeMessageList]
    rw [normalizeMessageListGo_eq_take raws 0 (by omega)]
  have heval : normalizeMessageList msgs201 = List.replicate 200 ⟨"user", .str "a"⟩ := by
    rw [msgs201, hgen]
    rw [List.filterMap_append,
      filterMap_replicate_some messageOfRaw uaRaw ⟨"user", .str "a"⟩ messageOfRaw_uaRaw 200,
      List.filterMap_cons_some messageOfRaw_ubRaw]
    rw [List.take_append_eq_append_take, List.length_replicate, Nat.sub_self,
      List.take_zero, List.append_nil]
    exact List.take_of_length_le (by rw [List.length_replicate])
  refine ⟨hgen, heval, ?_⟩
  rw [heval]
  intro hmem
  have := (List.mem_replicate.1 hmem).2
  have hcontent : (JVal.str "b") = (JVal.str "a") := congrArg NormMsg.content this
  simp at hcontent

/-- C7: tool names. Every name `getOrCreateKiroToolName` hands out is in the
language of `^(t_)?[A-Za-z0-9_]+$` (non-empty word-character strings), and the
rename map stays injective — distinct original names receive distinct
upstream names, duplicates being pushed to `base_2`, `base_3`, … — whenever
the `(toolNameMap, usedNames)` pair satisfies the invariant it starts with
(trivially true for the empty map the translator begins from). In
particular `3d-lookup` is emitted as `t_3d_lookup`, and a second tool whose
sanitized base collides with a used name gets the `_2` suffix. -/
theorem claimC7_tool_name_sanitization :
    (∀ (orig : String) (m : List (String × String)) (used : List String),
      ToolNamesInv m used →
      validToolName (getOrCreateKiroToolName orig m used).1 = true ∧
      ToolNamesInv (getOrCreateKiroToolName orig m used).2.1
        (getOrCreateKiroToolName orig m used).2.2) ∧
    sanitizeToolName "3d-lookup" = "t_3d_lookup" ∧
    (getOrCreateKiroToolName "3d-lookup" [] []).1 = "t_3d_lookup" ∧
    (getOrCreateKiroToolName "a.b" [("a-b", "a_b")] ["a_b"]).1 = "a_b_2" := by
  refine ⟨getOrCreateKiroToolName_inv, by decide, ?_, ?_⟩
  · have hfind : List.find? (fun p => p.1 == "3d-lookup") ([] : List (String × String)) = none :=
      rfl
    rw [getOrCreateKiroToolName, hfind]
    dsimp only
    have hsan : sanitizeToolName "3d-lookup" = "t_3d_lookup" := by decide
    rw [hsan]
    rw [if_neg (by decide : ¬ "t_3d_lookup" ∈ ([] : List String))]
  · have hfind : List.find? (fun p => p.1 == "a.b") [("a-b", "a_b")] = none := by decide
    rw [getOrCreateKiroToolName, hfind]
    dsimp only
    have hsan : sanitizeToolName "a.b" = "a_b" := by decide
    rw [hsan]
    rw [if_pos (by decide : "a_b" ∈ ["a_b"])]
    rw [freshCandidate]
    have hcand : candidateName "a_b" 2 = "a_b_2" := by decide
    rw [hcand]
    rw [dif_neg (by decide : ¬ "a_b_2" ∈ ["a_b"])]

theorem claimC7_tool_name_sanitization_witness :
    ToolNamesInv [] [] ∧
    validToolName (getOrCreateKiroToolName "3d-lookup" [] []).1 = true ∧
    ToolNamesInv (getOrCreateKiroToolName "3d-lookup" [] []).2.1
      (getOrCreateKiroToolName "3d-lookup" [] []).2.2 :=
  ⟨⟨by simp, by simp, by simp⟩,
   (claimC7_tool_name_sanitization.1 "3d-lookup" [] [] ⟨by simp, by simp, by simp⟩)⟩

theorem jsToLower_redacted : jsToLower "redacted_thinking" = "redacted_thinking" := by decide

theorem assistantBlockStep_redacted (parse : String → Option JVal) (st : AsstState)
    (fields : List (String × JVal)) (hty : getField fields "type" = .str "redacted_thinking") :
    assistantBlockStep parse st (.obj fields) = st := by
  unfold assistantBlockStep jGetField
  dsimp only
  rw [hty]
  show (if jsToLower (coerceStringJ (.str "redacted_thinking") "") = "thinking" then _ else _) = st
  rw [coerceStringJ, jsToLower_redacted]
  rw [if_neg (by decide), if_neg (by decide), if_neg (by decide), if_pos rfl]

theorem userBlockStep_redacted (acc : List String × List KiroToolResult)
    (fields : List (String × JVal)) (hty : getField fields "type" = .str "redacted_thinking")
    (hempty : extractTextFromAny
      (jsNullishOr (getField fields "thinking") (getField fields "text")) = "") :
    userBlockStep acc (.obj fields) = acc := by
  unfold userBlockStep jGetField
  dsimp only
  rw [hty]
  show (if jsToLower (coerceStringJ (.str "redacted_thinking") "") = "text" then _ else _) = acc
  rw [coerceStringJ, jsToLower_redacted]
  rw [if_neg (by decide), if_neg (by decide), if_pos (Or.inr rfl)]
  rw [hempty]
  simp

/-- C9 (amended): a `redacted_thinking` block contributes nothing in an
ASSISTANT message — removing it leaves `extractAssistantContent` unchanged.
In a USER message the code handles `redacted_thinking` like `thinking`
(appending its `thinking`/`text` payload as plain text), so there it is
dropped only when that extracted payload is empty. -/
theorem claimC9_redacted_thinking_amended :
    (∀ (parse : String → Option JVal) (pre post : List JVal)
        (fields : List (String × JVal)) (m : List (String × String)) (u : List String),
      getField fields "type" = .str "redacted_thinking" →
      extractAssistantContent parse (.arr (pre ++ .obj fields :: post)) m u =
        extractAssistantContent parse (.arr (pre ++ post)) m u) ∧
    (∀ (pre post : List JVal) (fields : List (String × JVal)),
      getField fields "type" = .str "redacted_thinking" →
      extractTextFromAny
        (jsNullishOr (getField fields "thinking") (getField fields "text")) = "" →
      extractUserContent (.arr (pre ++ .obj fields :: post)) =
        extractUserContent (.arr (pre ++ post))) := by
  have hblocks : ∀ (pre post : List JVal) (fields : List (String × JVal)),
      normalizeContentBlocks (.arr (pre ++ .obj fields :: post)) =
        normalizeContentBlocks (.arr pre) ++ .obj fields :: normalizeContentBlocks (.arr post) := by
    intro pre post fields
    show (pre ++ .obj fields :: post).filterMap _ = pre.filterMap _ ++ _ :: post.filterMap _
    rw [List.filterMap_append]
    rfl
  have hblocks2 : ∀ (pre post : List JVal),
      normalizeContentBlocks (.arr (pre ++ post)) =
        normalizeContentBlocks (.arr pre) ++ normalizeContentBlocks (.arr post) := by
    intro pre post
    show (pre ++ post).filterMap _ = pre.filterMap _ ++ post.filterMap _
    rw [List.filterMap_append]
  constructor
  · intro parse pre post fields m u hty
    unfold extractAssistantContent
    dsimp only
    rw [hblocks, hblocks2, List.foldl_append, List.foldl_append, List.foldl_cons,
      assistantBlockStep_redacted parse _ fields hty]
  · intro pre post fields hty hempty
    have harr1 : jsTruthy (.arr (pre ++ .obj fields :: post)) = true := rfl
    have harr2 : jsTruthy (.arr (pre ++ post)) = true := rfl
    unfold extractUserContent
    rw [if_neg (by rw [harr1]; decide), if_neg (by rw [harr2]; decide)]
    dsimp only
    have hst : (normalizeContentBlocks (.arr (pre ++ .obj fields :: post))).foldl
        userBlockStep ([], []) =
        (normalizeContentBlocks (.arr (pre ++ post))).foldl userBlockStep ([], []) := by
      rw [hblocks, hblocks2, List.foldl_append, List.foldl_append, List.foldl_cons,
        userBlockStep_redacted _ fields hty hempty]
    rw [hst]

theorem claimC9_redacted_thinking_amended_witness :
    getField [("type", .str "redacted_thinking")] "type" = .str "redacted_thinking" ∧
    extractTextFromAny (jsNullishOr (getField [("type", .str "redacted_thinking")] "thinking")
      (getField [("type", .str "redacted_thinking")] "text")) = "" ∧
    extractUserContent (.arr ([] ++ .obj [("type", .str "redacted_thinking")] :: [])) =
      extractUserContent (.arr ([] ++ [])) :=
  ⟨rfl, by simp [getField, List.find?, jsNullishOr, extractTextFromAny],
   claimC9_redacted_thinking_amended.2 [] [] [("type", .str "redacted_thinking")] rfl
     (by simp [getField, List.find?, jsNullishOr, extractTextFromAny])⟩

/-- The concrete user-message block refuting C9 as stated. -/
def redactedSecretBlock : JVal :=
  .obj [("type", .str "redacted_thinking"), ("thinking", .str "secret")]

/-- C9 (counterexample): in a USER message, a `redacted_thinking` block whose
`thinking` field is the string `secret` contributes that text to the
translated output — it is not dropped. -/
theorem claimC9_counterexample :
    (extractUserContent (.arr [redactedSecretBlock])).1 = "secret" ∧
    ("secret" : String) ≠ "" := by
  constructor
  · unfold extractUserContent
    rw [if_neg (by decide)]
    dsimp only
    have hblocks : normalizeContentBlocks (.arr [redactedSecretBlock]) =
        [redactedSecretBlock] := rfl
    rw [hblocks]
    have hstep : userBlockStep ([], []) redactedSecretBlock = (["secret"], []) := by
      unfold userBlockStep jGetField redactedSecretBlock
      dsimp only
      have hty : getField [("type", .str "redacted_thinking"), ("thinking", .str "secret")]
          "type" = .str "redacted_thinking" := rfl
      rw [hty]
      show (if jsToLower (coerceStringJ (.str "redacted_thinking") "") = "text"
        then _ else _) = (["secret"], [])
      rw [coerceStringJ, jsToLower_redacted]
      rw [if_neg (by decide), if_neg (by decide), if_pos (Or.inr rfl)]
      have hth : getField [("type", .str "redacted_thinking"), ("thinking", .str "secret")]
          "thinking" = .str "secret" := rfl
      rw [hth]
      have hsec : extractTextFromAny (jsNullishOr (.str "secret")
          (getField [("type", .str "redacted_thinking"), ("thinking", .str "secret")]
            "text")) = "secret" := by
        simp [jsNullishOr, extractTextFromAny]
      rw [hsec]
      simp
    rw [List.foldl_cons, hstep, List.foldl_nil]
    decide
  · decide

theorem mergeAccountWithExisting_id (prev : String → Option Account) (acc : Account) :
    (mergeAccountWithExisting prev acc).id = acc.id := by
  unfold mergeAccountWithExisting
  cases prev acc.id <;> rfl

theorem mapInsert_isSome (m : String → Option Account) (k : String) (v : Account)
    (x : String) :
    (mapInsert m k v x).isSome = true ↔ (x = k ∨ (m x).isSome = true) := by
  unfold mapInsert
  by_cases h : x = k
  · simp [h]
  · simp [h]

theorem syncGo_isSome (prev : String → Option Account) (now : String) (region : JVal) :
    ∀ (l : List (JVal × String)) (next : String → Option Account) (k : String),
    (syncSharedAccountsGo prev now region l next k).isSome = true ↔
      ((next k).isSome = true ∨
        ∃ p ∈ l, ∃ acc, normalizeSharedAccount now p.2 region p.1 = some acc ∧ acc.id = k) := by
  intro l
  induction l with
  | nil =>
    intro next k
    rw [syncSharedAccountsGo]
    simp
  | cons p rest ih =>
    intro next k
    cases p with
    | mk raw f =>
      rw [syncSharedAccountsGo]
      cases hn : normalizeSharedAccount now f region raw with
      | none =>
        rw [ih next k]
        constructor
        · rintro (h | ⟨q, hq, acc, hacc, hid⟩)
          · exact Or.inl h
          · exact Or.inr ⟨q, List.mem_cons_of_mem _ hq, acc, hacc, hid⟩
        · rintro (h | ⟨q, hq, acc, hacc, hid⟩)
          · exact Or.inl h
          · rcases List.mem_cons.1 hq with rfl | hq2
            · rw [hn] at hacc; cases hacc
            · exact Or.inr ⟨q, hq2, acc, hacc, hid⟩
      | some acc0 =>
        rw [ih _ k, mapInsert_isSome, mergeAccountWithExisting_id]
        constructor
        · rintro ((rfl | h) | ⟨q, hq, acc, hacc, hid⟩)
          · exact Or.inr ⟨(raw, f), List.mem_cons_self _ _, acc0, hn, rfl⟩
          · exact Or.inl h
          · exact Or.inr ⟨q, List.mem_cons_of_mem _ hq, acc, hacc, hid⟩
        · rintro (h | ⟨q, hq, acc, hacc, hid⟩)
          · exact Or.inl (Or.inr h)
          · rcases List.mem_cons.1 hq with rfl | hq2
            · rw [hn] at hacc
              cases hacc
              exact Or.inl (Or.inl hid.symm)
            · exact Or.inr ⟨q, hq2, acc, hacc, hid⟩

theorem merge_preserves (prev : String → Option Account) (acc0 : Account) (a : Account)
    (h : prev acc0.id = some a) :
    (mergeAccountWithExisting prev acc0).requestCount = a.requestCount ∧
    (mergeAccountWithExisting prev acc0).errorCount = a.errorCount ∧
    (a.status = "cooldown" → (mergeAccountWithExisting prev acc0).status = "cooldown") ∧
    (jsTruthy a.lastUsedAt = true →
      (mergeAccountWithExisting prev acc0).lastUsedAt = a.lastUsedAt) := by
  unfold mergeAccountWithExisting
  rw [h]
  refine ⟨rfl, rfl, ?_, ?_⟩
  · intro hcool
    simp [hcool]
  · intro htruthy
    show jsOrJ a.lastUsedAt acc0.lastUsedAt = a.lastUsedAt
    unfold jsOrJ
    rw [if_pos htruthy]

theorem syncGo_preserve (prev : String → Option Account) (now : String) (region : JVal) :
    ∀ (l : List (JVal × String)) (next : String → Option Account),
    (∀ k b, next k = some b → ∀ a, prev k = some a →
      b.requestCount = a.requestCount ∧ b.errorCount = a.errorCount ∧
      (a.status = "cooldown" → b.status = "cooldown") ∧
      (jsTruthy a.lastUsedAt = true → b.lastUsedAt = a.lastUsedAt)) →
    ∀ k b, syncSharedAccountsGo prev now region l next k = some b → ∀ a, prev k = some a →
      b.requestCount = a.requestCount ∧ b.errorCount = a.errorCount ∧
      (a.status = "cooldown" → b.status = "cooldown") ∧
      (jsTruthy a.lastUsedAt = true → b.lastUsedAt = a.lastUsedAt) := by
  intro l
  induction l with
  | nil =>
    intro next hinv k b hget a ha
    rw [syncSharedAccountsGo] at hget
    exact hinv k b hget a ha
  | cons p rest ih =>
    intro next hinv k b hget a ha
    cases p with
    | mk raw f =>
      rw [syncSharedAccountsGo] at hget
      cases hn : normalizeSharedAccount now f region raw with
      | none =>
        rw [hn] at hget
        exact ih next hinv k b hget a ha
      | some acc0 =>
        rw [hn] at hget
        refine ih _ ?_ k b hget a ha
        intro k2 b2 hget2 a2 ha2
        unfold mapInsert at hget2
        by_cases hk : k2 = (mergeAccountWithExisting prev acc0).id
        · rw [if_pos hk] at hget2
          cases hget2
          rw [hk, mergeAccountWithExisting_id] at ha2
          exact merge_preserves prev acc0 a2 ha2
        · rw [if_neg hk] at hget2
          exact hinv k2 b2 hget2 a2 ha2

/-- C5 (amended): after a successful shared-file sync, the id set of the pool
is exactly the ids of the parsed records that carry a (truthy) refresh token;
for every id present both before and after, the new record keeps the previous
`requestCount` and `errorCount`, keeps a `cooldown` status, and keeps the
previous `lastUsedAt` WHEN that previous value is truthy — a null (or empty)
previous `lastUsedAt` instead adopts the value from the file
(`existingAccount.lastUsedAt || account.lastUsedAt`), which is the one
correction to the claim as stated. -/
theorem claimC5_shared_sync_amended (prev : String → Option Account) (now : String)
    (region : JVal) (parsed : List (JVal × String)) :
    (∀ k, (syncSharedAccounts prev now region parsed k).isSome = true ↔
      ∃ p ∈ parsed, ∃ acc, normalizeSharedAccount now p.2 region p.1 = some acc ∧
        acc.id = k) ∧
    (∀ raw f, (∃ acc, normalizeSharedAccount now f region raw = some acc) ↔
      ((match raw with | .obj _ => true | _ => false) = true ∧
        jsTruthy (jsOrJ (jGetField raw "refreshToken")
          (jsOrJ (jGetField raw "refresh_token") .null)) = true)) ∧
    (∀ k a b, prev k = some a → syncSharedAccounts prev now region parsed k = some b →
      b.requestCount = a.requestCount ∧ b.errorCount = a.errorCount ∧
      (a.status = "cooldown" → b.status = "cooldown") ∧
      (jsTruthy a.lastUsedAt = true → b.lastUsedAt = a.lastUsedAt)) := by
  refine ⟨?_, ?_, ?_⟩
  · intro k
    unfold syncSharedAccounts
    rw [syncGo_isSome]
    simp
  · intro raw f
    cases raw with
    | obj fs =>
      unfold normalizeSharedAccount
      dsimp only
      by_cases ht : jsTruthy (normalizeSharedCredentials (.obj fs) region).refreshToken = true
      · rw [if_neg (by simp [ht])]
        constructor
        · intro _
          exact ⟨rfl, ht⟩
        · intro _
          exact ⟨_, rfl⟩
      · rw [if_pos (by simp at ht ⊢; exact ht)]
        constructor
        · rintro ⟨acc, hacc⟩
          cases hacc
        · rintro ⟨_, htr⟩
          exact absurd htr ht
    | null => simp [normalizeSharedAccount]
    | bool b => simp [normalizeSharedAccount]
    | num n => simp [normalizeSharedAccount]
    | str s => simp [normalizeSharedAccount]
    | arr xs => simp [normalizeSharedAccount]
  · intro k a b ha hb
    exact syncGo_preserve prev now region parsed _ (by intro k2 b2 h; cases h) k b hb a ha

/-- The pool state and file record exhibiting the C5 `lastUsedAt` deviation. -/
def prevAcctC5 : Account :=
  ⟨"a", "n", ⟨.str "rt0", .null, .null, .null, .null, .null, .null, "social"⟩,
   "active", 7, 2, .null, .null, .null⟩

def prevPoolC5 : String → Option Account :=
  fun x => if x = "a" then some prevAcctC5 else none

def rawAcctC5 : JVal :=
  .obj [("id", .str "a"), ("refreshToken", .str "rt"), ("lastUsedAt", .str "2024-01-01")]

/-- C5 (counterexample): the previous record for id `a` has `lastUsedAt =
null`, yet after the sync the record's `lastUsedAt` is the file's
`2024-01-01` — the new record does not keep the previous `lastUsedAt`,
refuting the claim as stated. -/
theorem claimC5_counterexample :
    prevAcctC5.lastUsedAt = .null ∧
    ((syncSharedAccounts prevPoolC5 "2024-06-01" .null [(rawAcctC5, "fresh")]) "a").map
      Account.lastUsedAt = some (.str "2024-01-01") ∧
    (JVal.str "2024-01-01") ≠ JVal.null := by
  refine ⟨rfl, ?_, fun h => JVal.noConfusion h⟩
  have hnorm : normalizeSharedAccount "2024-06-01" "fresh" .null rawAcctC5 =
      some { id := "a", name := "共享账号 a",
             credentials := ⟨.str "rt", .null, .null, .null, .null, .null, .null, "social"⟩,
             status := "active", requestCount := 0, errorCount := 0,
             createdAt := .str "2024-06-01", lastUsedAt := .str "2024-01-01",
             usage := .null } := by
    unfold normalizeSharedAccount normalizeSharedCredentials rawAcctC5
    simp [jGetField, getField, List.find?, jsOrJ, jsTruthy, jValToString, mapStatus,
      jsTrim, jsToLower, jsIncludes, listContainsSub, jsTake]
  unfold syncSharedAccounts syncSharedAccountsGo
  rw [hnorm]
  dsimp only
  have hmerge : mergeAccountWithExisting prevPoolC5
      { id := "a", name := "共享账号 a",
        credentials := ⟨.str "rt", .null, .null, .null, .null, .null, .null, "social"⟩,
        status := "active", requestCount := 0, errorCount := 0,
        createdAt := .str "2024-06-01", lastUsedAt := .str "2024-01-01",
        usage := .null } =
      { id := "a", name := "共享账号 a",
        credentials := ⟨.str "rt", .null, .null, .null, .null, .null, .null, "social"⟩,
        status := "active", requestCount := 7, errorCount := 2,
        createdAt := .str "2024-06-01", lastUsedAt := .str "2024-01-01",
        usage := .null } := by
    unfold mergeAccountWithExisting prevPoolC5 prevAcctC5
    simp [jsOrJ, jsTruthy]
  rw [hmerge]
  rw [syncSharedAccountsGo]
  simp [mapInsert]

theorem claimC5_shared_sync_amended_witness :
    prevPoolC5 "a" = some prevAcctC5 ∧
    ((∀ k, (syncSharedAccounts prevPoolC5 "2024-06-01" .null [(rawAcctC5, "fresh")] k).isSome
        = true ↔
      ∃ p ∈ [(rawAcctC5, "fresh")], ∃ acc,
        normalizeSharedAccount "2024-06-01" p.2 .null p.1 = some acc ∧ acc.id = k)) :=
  ⟨by simp [prevPoolC5],
   (claimC5_shared_sync_amended prevPoolC5 "2024-06-01" .null [(rawAcctC5, "fresh")]).1⟩


/-- The foreign request exhibiting the C3 deviation: one user message, a
single web-search tool (filtered out of the emitted tools), and
`tool_choice: {type: "any"}`. -/
def c3Req : AnthropicRequest :=
  ⟨.arr [.obj [("role", .str "user"), ("content", .str "hi")]],
   .null,
   .arr [.obj [("name", .str "web_search")]],
   .obj [("type", .str "any")],
   .null⟩

theorem messageOfRaw_hi :
    messageOfRaw (.obj [("role", .str "user"), ("content", .str "hi")]) =
      some ⟨"user", .str "hi"⟩ := by
  simp [messageOfRaw, getField, List.find?, jValToString, jsTruthy]
  constructor
  · decide
  · rfl

theorem normalizeMessageList_c3 :
    normalizeMessageList c3Req.messages = [⟨"user", .str "hi"⟩] := by
  have h1 : normalizeMessageList c3Req.messages =
      normalizeMessageListGo [.obj [("role", .str "user"), ("content", .str "hi")]] 0 := rfl
  rw [h1, normalizeMessageListGo, messageOfRaw_hi]
  dsimp only
  rw [if_neg (by decide)]
  rfl

/-- C3: evaluating the translator at the failing input — tools =
`[{name: "web_search"}]` (an unsupported web-search variant, so the emitted
tool list is empty and no `userInputMessageContext` is attached) together
with `tool_choice = {type: "any"}` — yields `chatTriggerType = "AUTO"` with
no tools attached to the current message, violating the claimed invariant
that AUTO is emitted only when the attached tools array is present and
non-empty. -/
theorem claimC3_auto_with_no_attached_tools :
    (convertRequest (fun _ => none) "model-x" none "cid" "acid" c3Req).map
      (fun out => (out.1.conversationState.chatTriggerType,
        out.1.conversationState.currentMessage.userInputMessageContext.isNone)) =
      some ("AUTO", true) := by
  simp only [convertRequest, normalizeMessageList_c3]
  rfl

/-- The SPEC's description of the current-turn content: the literal
`continue` when the final input message is an assistant message, otherwise
the newline-joined non-empty texts of the trailing run of user messages,
with `continue` again as the empty fallback. Stated from the spec's words,
to be compared with the translator's output. -/
def specCurrentText (msgs : List NormMsg) : String :=
  if (msgs.getLast?.map (fun m => m.role == "assistant")).getD false then "continue"
  else jsOrStr (joinWith "\n"
    (((currentUserMessages msgs).map (fun m => (extractUserContent m.content).1)).filter
      (fun s => s ≠ ""))) "continue"

theorem normalizeMessageList_roles (v : JVal) :
    ∀ m ∈ normalizeMessageList v, m.role = "user" ∨ m.role = "assistant" := by
  intro m hm
  cases v with
  | arr raws =>
    have hchar : normalizeMessageList (.arr raws) =
        (raws.filterMap messageOfRaw).take 200 := by
      have h0 : normalizeMessageList (.arr raws) = normalizeMessageListGo raws 0 := rfl
      rw [h0, normalizeMessageListGo_eq_take raws 0 (by omega)]
    rw [hchar] at hm
    have hm2 := List.take_subset 200 _ hm
    rcases List.mem_filterMap.1 hm2 with ⟨raw, _, hmor⟩
    cases raw with
    | obj fs =>
      unfold messageOfRaw at hmor
      dsimp only at hmor
      revert hmor
      generalize (jsToLower (jsTrim
        (if jsTruthy (getField fs "role") = true then jValToString (getField fs "role")
         else ""))) = role
      intro hmor
      by_cases hrole : role = "user" ∨ role = "assistant"
      · rw [if_pos hrole, Option.some.injEq] at hmor
        rw [← hmor]
        exact hrole
      · rw [if_neg hrole] at hmor
        cases hmor
    | null => cases hmor
    | bool b => cases hmor
    | num n => cases hmor
    | str s => cases hmor
    | arr xs => cases hmor
  | null => cases hm
  | bool b => cases hm
  | num n => cases hm
  | str s => cases hm
  | obj fs => cases hm

theorem currentTurnFold_go (msgs : List NormMsg) :
    ∀ acc : List String × List KiroToolResult,
    (msgs.foldl (fun acc msg =>
      let r := extractUserContent msg.content
      (acc.1 ++ (if r.1 ≠ "" then [r.1] else []), acc.2 ++ r.2)) acc).1 =
    acc.1 ++ ((msgs.map (fun m => (extractUserContent m.content).1)).filter
      (fun s => s ≠ "")) := by
  induction msgs with
  | nil => intro acc; simp
  | cons m rest ih =>
    intro acc
    rw [List.foldl_cons, List.map_cons, List.filter_cons]
    rw [ih]
    dsimp only
    by_cases hne : (extractUserContent m.content).1 ≠ ""
    · rw [if_pos hne, if_pos (by simpa using hne)]
      simp
    · rw [if_neg hne, if_neg (by simpa using hne)]
      simp

theorem currentTurnFold_parts (msgs : List NormMsg) :
    (currentTurnFold msgs).1 =
      (msgs.map (fun m => (extractUserContent m.content).1)).filter (fun s => s ≠ "") := by
  unfold currentTurnFold
  rw [currentTurnFold_go msgs ([], [])]
  simp

theorem endsWithAssistant_eq (msgs : List NormMsg) (hne : msgs ≠ [])
    (hroles : ∀ m ∈ msgs, m.role = "user" ∨ m.role = "assistant") :
    endsWithAssistant msgs =
      ((msgs.getLast?.map (fun m => m.role == "assistant")).getD false) := by
  have hfalse : msgs.isEmpty = false := by
    cases msgs with
    | nil => exact absurd rfl hne
    | cons a t => rfl
  cases hlast : msgs.getLast? with
  | none => exact absurd (List.getLast?_eq_none_iff.1 hlast) hne
  | some m =>
    have hmem : m ∈ msgs := List.mem_of_mem_getLast? (by rw [hlast]; rfl)
    have hhead : msgs.reverse.head? = some m := by
      rw [List.head?_reverse]
      exact hlast
    obtain ⟨tl, htl⟩ : ∃ tl, msgs.reverse = m :: tl := by
      cases hrev : msgs.reverse with
      | nil => rw [hrev] at hhead; cases hhead
      | cons x xs =>
        rw [hrev] at hhead
        rw [List.head?_cons, Option.some.injEq] at hhead
        exact ⟨xs, by rw [hhead]⟩
    rcases hroles m hmem with hu | ha
    · unfold endsWithAssistant
      rw [hlast]
      simp [hu]
    · unfold endsWithAssistant currentUserMessages
      rw [htl, hlast, List.takeWhile_cons]
      rw [if_neg (by simp [ha])]
      simp [ha, hfalse]

theorem currentMessageOut_spec (msgs : List NormMsg) (hne : msgs ≠ [])
    (hroles : ∀ m ∈ msgs, m.role = "user" ∨ m.role = "assistant") :
    (currentMessageOut msgs).1 = specCurrentText msgs := by
  unfold currentMessageOut specCurrentText
  rw [endsWithAssistant_eq msgs hne hroles]
  by_cases hcond : ((msgs.getLast?.map (fun m => m.role == "assistant")).getD false) = true
  · rw [if_pos hcond, if_pos hcond]
  · rw [if_neg hcond, if_neg hcond]
    dsimp only
    rw [currentTurnFold_parts]

/-- C4 (amended): in every translated request,
`currentMessage.userInputMessage.content` equals the spec's current-turn
text — the newline-joined non-empty texts of the trailing user run, or the
literal `continue` when that is empty or the final input message is an
assistant message — with NO truncation applied on the primary path (the
12 000-character truncation exists only in the fallback bodies). -/
theorem claimC4_current_content_amended (parse : String → Option JVal) (modelId : String)
    (profileArn : Option String) (cid acid : String) (req : AnthropicRequest)
    (out : KiroRequest × List (String × String))
    (h : convertRequest parse modelId profileArn cid acid req = some out) :
    out.1.conversationState.currentMessage.content =
      specCurrentText (normalizeMessageList req.messages) := by
  simp only [convertRequest] at h
  by_cases hempty : (normalizeMessageList req.messages).isEmpty
  · rw [if_pos hempty] at h
    cases h
  · rw [if_neg hempty] at h
    have hne : normalizeMessageList req.messages ≠ [] := by
      intro hc
      rw [hc] at hempty
      exact hempty rfl
    rw [Option.some.injEq] at h
    rw [← h]
    exact currentMessageOut_spec _ hne (normalizeMessageList_roles req.messages)

theorem jValToString_str (s : String) : jValToString (.str s) = s := by
  rw [jValToString]

theorem messageOfRaw_user_str (s : String) :
    messageOfRaw (.obj [("role", .str "user"), ("content", .str s)]) =
      some ⟨"user", .str s⟩ := by
  unfold messageOfRaw
  dsimp only
  have h1 : getField [("role", JVal.str "user"), ("content", JVal.str s)] "role" =
      .str "user" := rfl
  rw [h1]
  rw [if_pos (by decide : jsTruthy (JVal.str "user") = true)]
  rw [jValToString_str]
  rw [(by decide : jsToLower (jsTrim "user") = "user")]
  rw [if_pos (Or.inl rfl)]
  rfl

/-- A request whose single user message holds 12 001 characters. -/
def longUserStr : String := String.mk (List.replicate 12001 'a')

def c4Req : AnthropicRequest :=
  ⟨.arr [.obj [("role", .str "user"), ("content", .str longUserStr)]],
   .null, .null, .null, .null⟩

theorem longUserStr_ne_empty : longUserStr ≠ "" := by
  intro h
  have h2 := congrArg (fun s : String => s.data.length) h
  dsimp only [longUserStr] at h2
  rw [List.length_replicate] at h2
  exact absurd h2 (by decide)

theorem normalizeMessageList_c4 :
    normalizeMessageList c4Req.messages = [⟨"user", .str longUserStr⟩] := by
  have h1 : normalizeMessageList c4Req.messages =
      normalizeMessageListGo [.obj [("role", .str "user"), ("content", .str longUserStr)]]
        0 := rfl
  rw [h1, normalizeMessageListGo, messageOfRaw_user_str]
  dsimp only
  rw [if_neg (by decide)]
  rfl

/-- C4 (counterexample): with a 12 001-character user message, the primary
request's `currentMessage.userInputMessage.content` has 12 001 characters —
it is NOT truncated to at most 12 000 as the claim states. -/
theorem claimC4_counterexample :
    (convertRequest (fun _ => none) "m" none "c" "a" c4Req).map
      (fun out => jsLen out.1.conversationState.currentMessage.content) = some 12001 ∧
    ¬ (12001 ≤ 12000) := by
  refine ⟨?_, by omega⟩
  have hcm : (currentMessageOut [⟨"user", .str longUserStr⟩]).1 = longUserStr := by
    unfold currentMessageOut
    rw [if_neg (by decide)]
    dsimp only
    have hfold : currentTurnFold (currentUserMessages [⟨"user", .str longUserStr⟩]) =
        ([longUserStr], []) := by
      have hcu : currentUserMessages [⟨"user", .str longUserStr⟩] =
          [⟨"user", .str longUserStr⟩] := rfl
      rw [hcu]
      unfold currentTurnFold
      rw [List.foldl_cons, List.foldl_nil]
      have hext : extractUserContent (.str longUserStr) = (longUserStr, []) := by
        unfold extractUserContent
        rw [if_neg (by simp [jsTruthy, longUserStr_ne_empty])]
      rw [hext]
      dsimp only
      rw [if_pos (by simpa using longUserStr_ne_empty)]
      rfl
    rw [hfold]
    show jsOrStr (joinWith "\n" [longUserStr]) "continue" = longUserStr
    rw [joinWith, jsOrStr, if_neg longUserStr_ne_empty]
  have hlen : jsLen longUserStr = 12001 := by
    have h0 : jsLen longUserStr = (List.replicate 12001 'a').length := rfl
    rw [h0, List.length_replicate]
  simp only [convertRequest, normalizeMessageList_c4]
  rw [if_neg (by decide)]
  rw [Option.map_some']
  dsimp only
  rw [hcm, hlen]

def c4WitnessReq : AnthropicRequest :=
  ⟨.arr [.obj [("role", .str "user"), ("content", .str "hi")]],
   .null, .null, .null, .null⟩

theorem normalizeMessageList_c4w :
    normalizeMessageList c4WitnessReq.messages = [⟨"user", .str "hi"⟩] := by
  have h1 : normalizeMessageList c4WitnessReq.messages =
      normalizeMessageListGo [.obj [("role", .str "user"), ("content", .str "hi")]] 0 := rfl
  rw [h1, normalizeMessageListGo, messageOfRaw_user_str]
  dsimp only
  rw [if_neg (by decide)]
  rfl

def c4WitnessOut : KiroRequest × List (String × String) :=
  (⟨⟨"a", "vibe", "MANUAL", ⟨"hi", some "m", some "AI_EDITOR", none⟩, "c", []⟩, none⟩, [])

theorem convertRequest_c4w :
    convertRequest (fun _ => none) "m" none "c" "a" c4WitnessReq = some c4WitnessOut := by
  simp only [convertRequest, normalizeMessageList_c4w]
  rfl

theorem claimC4_current_content_amended_witness :
    convertRequest (fun _ => none) "m" none "c" "a" c4WitnessReq = some c4WitnessOut ∧
    c4WitnessOut.1.conversationState.currentMessage.content =
      specCurrentText (normalizeMessageList c4WitnessReq.messages) :=
  ⟨convertRequest_c4w,
   claimC4_current_content_amended (fun _ => none) "m" none "c" "a" c4WitnessReq _
     convertRequest_c4w⟩


/-! ### Idempotence of the fallback transformations (claim C8) -/

theorem ctx_set_toolResults_none (c : UserInputMessageContext) (h : c.toolResults = none) :
    { c with toolResults := none } = c := by
  cases c
  simp_all

theorem ctx_set_tools_same (c : UserInputMessageContext) (ts : List KiroTool)
    (h : c.tools = some ts) : { c with tools := some ts } = c := by
  cases c
  simp_all

theorem fallbackCompactTool_idem (t : KiroTool) :
    fallbackCompactTool (fallbackCompactTool t) = fallbackCompactTool t := by
  unfold fallbackCompactTool
  dsimp only
  rw [truncateString_idem]

theorem sanitizeHistoryCtx_compact (c : UserInputMessageContext) :
    sanitizeHistoryCtx FallbackMode.compactTools c =
      if c.tools.isNone && c.toolResults.isNone then none else some c := by
  simp only [sanitizeHistoryCtx]
  have h1 : ¬(FallbackMode.compactTools ≠ FallbackMode.compactTools) := by decide
  have h2 : ¬(FallbackMode.compactTools = FallbackMode.noTools ∨
      FallbackMode.compactTools = FallbackMode.trimHistory ∨
      FallbackMode.compactTools = FallbackMode.minimalHistory ∨
      FallbackMode.compactTools = FallbackMode.singleTurn) := by decide
  rw [if_neg h1, if_neg h2]

theorem sanitizeHistoryCtx_dropAll (mode : FallbackMode) (c : UserInputMessageContext)
    (h : mode = FallbackMode.noTools ∨ mode = FallbackMode.trimHistory ∨
      mode = FallbackMode.minimalHistory ∨ mode = FallbackMode.singleTurn) :
    sanitizeHistoryCtx mode c = none := by
  simp only [sanitizeHistoryCtx]
  have h1 : mode ≠ FallbackMode.compactTools := by
    rcases h with h | h | h | h <;> subst h <;> decide
  rw [if_pos h1, if_pos h]
  simp

theorem sanitizeHistoryCtx_primary (c : UserInputMessageContext) :
    sanitizeHistoryCtx FallbackMode.primary c =
      if c.tools.isNone then none else some { c with toolResults := none } := by
  simp only [sanitizeHistoryCtx]
  have h1 : FallbackMode.primary ≠ FallbackMode.compactTools := by decide
  have h2 : ¬(FallbackMode.primary = FallbackMode.noTools ∨
      FallbackMode.primary = FallbackMode.trimHistory ∨
      FallbackMode.primary = FallbackMode.minimalHistory ∨
      FallbackMode.primary = FallbackMode.singleTurn) := by decide
  rw [if_pos h1, if_neg h2]
  simp only [Option.isNone_none, Bool.and_true]

theorem sanitizeHistoryCtx_idem (mode : FallbackMode) (c c' : UserInputMessageContext)
    (h : sanitizeHistoryCtx mode c = some c') :
    sanitizeHistoryCtx mode c' = some c' := by
  cases mode with
  | primary =>
    rw [sanitizeHistoryCtx_primary] at h
    cases htools : c.tools.isNone with
    | true => rw [if_pos htools] at h; cases h
    | false =>
      rw [if_neg (by rw [htools]; exact Bool.false_ne_true)] at h
      rw [Option.some.injEq] at h
      subst h
      rw [sanitizeHistoryCtx_primary]
      have hn : ({ c with toolResults := none } :
          UserInputMessageContext).tools.isNone = false := htools
      rw [hn, if_neg Bool.false_ne_true]
  | compactTools =>
    rw [sanitizeHistoryCtx_compact] at h
    cases hemp : (c.tools.isNone && c.toolResults.isNone) with
    | true => rw [if_pos hemp] at h; cases h
    | false =>
      rw [if_neg (by rw [hemp]; exact Bool.false_ne_true)] at h
      rw [Option.some.injEq] at h
      subst h
      rw [sanitizeHistoryCtx_compact,
        if_neg (by rw [hemp]; exact Bool.false_ne_true)]
  | noTools => rw [sanitizeHistoryCtx_dropAll _ _ (by decide)] at h; cases h
  | trimHistory => rw [sanitizeHistoryCtx_dropAll _ _ (by decide)] at h; cases h
  | minimalHistory => rw [sanitizeHistoryCtx_dropAll _ _ (by decide)] at h; cases h
  | singleTurn => rw [sanitizeHistoryCtx_dropAll _ _ (by decide)] at h; cases h

theorem sanitizeHistoryEntry_idem (mode : FallbackMode) (e : HistoryEntry) :
    sanitizeHistoryEntryForRetry mode (sanitizeHistoryEntryForRetry mode e) =
      sanitizeHistoryEntryForRetry mode e := by
  cases e with
  | user m =>
    unfold sanitizeHistoryEntryForRetry
    dsimp only
    cases hctx : m.userInputMessageContext with
    | none =>
      dsimp only
      rw [truncateString_idem]
    | some c =>
      dsimp only
      cases hsc : sanitizeHistoryCtx mode c with
      | none =>
        dsimp only
        rw [truncateString_idem]
      | some c' =>
        dsimp only
        rw [sanitizeHistoryCtx_idem mode c c' hsc]
        rw [truncateString_idem]
  | assistant m =>
    unfold sanitizeHistoryEntryForRetry
    dsimp only
    by_cases hset : mode = FallbackMode.trimHistory ∨ mode = FallbackMode.minimalHistory ∨
        mode = FallbackMode.singleTurn
    · rw [if_pos hset, if_pos hset]
      dsimp only
      rw [truncateString_idem]
    · rw [if_neg hset, if_neg hset]
      dsimp only
      rw [truncateString_idem]

/-- The trimmed/'continue'-defaulted content that `buildSingleTurnRequest`
computes before its final 12000-character truncation (named so the
idempotence argument can speak about it). -/
def singleTurnContent (content : String) (history : List HistoryEntry) : String :=
  let content0 := jsTrim content
  let content1 :=
    if content0 = "" ∨ jsToLower content0 = "continue" then
      let latest := extractLatestUserContentFromHistory history
      if latest ≠ "" then latest else content0
    else content0
  if content1 = "" then "continue" else content1

theorem buildSingleTurnRequest_eq (u1 u2 : String) (req : KiroRequest) :
    buildSingleTurnRequest u1 u2 req =
      ⟨⟨jsOrStr req.conversationState.agentContinuationId u1,
        jsOrStr req.conversationState.agentTaskType "vibe", "MANUAL",
        ⟨truncateString (singleTurnContent req.conversationState.currentMessage.content
            req.conversationState.history) 12000,
         req.conversationState.currentMessage.modelId,
         some (jsOptOr req.conversationState.currentMessage.origin "AI_EDITOR"), none⟩,
        jsOrStr req.conversationState.conversationId u2, []⟩,
       jsOptAttach req.profileArn⟩ := rfl

theorem extractLatestGo_shape (l : List HistoryEntry) :
    extractLatestGo l = "" ∨ ∃ w, extractLatestGo l = jsTrim w := by
  induction l with
  | nil => left; rfl
  | cons e rest ih =>
    cases e with
    | user m =>
      unfold extractLatestGo
      dsimp only
      by_cases h : jsTrim m.content ≠ "" ∧ jsToLower (jsTrim m.content) ≠ "continue"
      · rw [if_pos h]
        exact Or.inr ⟨m.content, rfl⟩
      · rw [if_neg h]
        exact ih
    | assistant m =>
      unfold extractLatestGo
      exact ih

theorem singleTurnContent_shape (c : String) (hist : List HistoryEntry) :
    (∃ w, singleTurnContent c hist = jsTrim w) ∧ singleTurnContent c hist ≠ "" := by
  simp only [singleTurnContent]
  by_cases h0 : jsTrim c = "" ∨ jsToLower (jsTrim c) = "continue"
  · rw [if_pos h0]
    by_cases hL : extractLatestUserContentFromHistory hist ≠ ""
    · rw [if_pos hL, if_neg hL]
      refine ⟨?_, hL⟩
      rcases extractLatestGo_shape hist.reverse with hZ | ⟨w, hw⟩
      · exact absurd hZ hL
      · exact ⟨w, hw⟩
    · rw [if_neg hL]
      by_cases hc : jsTrim c = ""
      · rw [if_pos hc]
        exact ⟨⟨"continue", by decide⟩, by decide⟩
      · rw [if_neg hc]
        exact ⟨⟨c, rfl⟩, hc⟩
  · rw [if_neg h0]
    have hc : jsTrim c ≠ "" := fun h => h0 (Or.inl h)
    rw [if_neg hc]
    exact ⟨⟨c, rfl⟩, hc⟩

theorem singleTurnContent_trunc (w : String) (hw : jsTrim w ≠ "") :
    singleTurnContent (truncateString (jsTrim w) 12000) [] =
      truncateString (jsTrim w) 12000 := by
  simp only [singleTurnContent]
  rw [jsTrim_truncate w 12000 hw (by omega)]
  rw [show extractLatestUserContentFromHistory [] = "" from rfl]
  rw [if_neg (show ¬(("" : String) ≠ "") from fun h => h rfl)]
  rw [ite_self]
  rw [if_neg (truncateString_ne_empty _ _ hw)]

theorem jsOrStr_stable (x u v : String) (hu : u ≠ "") :
    jsOrStr (jsOrStr x u) v = jsOrStr x u := by
  unfold jsOrStr
  by_cases hx : x = ""
  · rw [if_pos hx, if_neg hu]
  · rw [if_neg hx, if_neg hx]

theorem jsOptOr_stable (o : Option String) (d : String) (hd : d ≠ "") :
    jsOptOr (some (jsOptOr o d)) d = jsOptOr o d := by
  unfold jsOptOr
  cases o with
  | none =>
    dsimp only
    rw [ite_self]
  | some s =>
    dsimp only
    by_cases hs : s = ""
    · rw [if_pos hs, ite_self]
    · rw [if_neg hs, if_neg hs]

theorem jsOptAttach_idem (p : Option String) :
    jsOptAttach (jsOptAttach p) = jsOptAttach p := by
  unfold jsOptAttach
  cases p with
  | none => rfl
  | some s =>
    by_cases hs : s = ""
    · rw [show (some s).bind (fun p => if p = "" then none else some p) = none by
        dsimp only [Option.bind]; rw [if_pos hs]]
      rfl
    · rw [show (some s).bind (fun p => if p = "" then none else some p) = some s by
        dsimp only [Option.bind]; rw [if_neg hs]]
      dsimp only [Option.bind]
      rw [if_neg hs]

theorem buildSingleTurnRequest_idem (u1 u2 u3 u4 : String) (req : KiroRequest)
    (hu1 : u1 ≠ "") (hu2 : u2 ≠ "") :
    buildSingleTurnRequest u3 u4 (buildSingleTurnRequest u1 u2 req) =
      buildSingleTurnRequest u1 u2 req := by
  obtain ⟨⟨w, hw⟩, hne⟩ := singleTurnContent_shape
    req.conversationState.currentMessage.content req.conversationState.history
  rw [buildSingleTurnRequest_eq u1 u2 req]
  rw [buildSingleTurnRequest_eq u3 u4]
  dsimp only
  rw [hw] at hne ⊢
  rw [singleTurnContent_trunc w hne, truncateString_idem,
    jsOrStr_stable req.conversationState.agentContinuationId u1 u3 hu1,
    jsOrStr_stable req.conversationState.agentTaskType "vibe" "vibe" (by decide),
    jsOrStr_stable req.conversationState.conversationId u2 u4 hu2,
    jsOptOr_stable req.conversationState.currentMessage.origin "AI_EDITOR" (by decide),
    jsOptAttach_idem]

theorem fallbackCtx_dropAll (mode : FallbackMode) (c : UserInputMessageContext)
    (h : mode = FallbackMode.noTools ∨ mode = FallbackMode.trimHistory ∨
      mode = FallbackMode.minimalHistory) :
    fallbackCtx mode c = none := by
  simp only [fallbackCtx]
  have h1 : mode ≠ FallbackMode.compactTools := by
    rcases h with h | h | h <;> subst h <;> decide
  rw [if_pos h1, if_pos h, if_neg h1]
  simp

theorem fallbackCtx_compact_of_tools (d : UserInputMessageContext) (l : List KiroTool)
    (hd : d.tools = some l) (hl : l.length ≤ 24)
    (hfix : l.map fallbackCompactTool = l) :
    fallbackCtx FallbackMode.compactTools d = some d := by
  simp [fallbackCtx, hd]
  rw [hfix, List.take_of_length_le hl]
  exact ctx_set_tools_same d l hd

theorem fallbackCtx_compact_idem (c c' : UserInputMessageContext)
    (h : fallbackCtx FallbackMode.compactTools c = some c') :
    fallbackCtx FallbackMode.compactTools c' = some c' := by
  have hff : fallbackCompactTool ∘ fallbackCompactTool = fallbackCompactTool :=
    funext fallbackCompactTool_idem
  cases htools : c.tools with
  | none =>
    cases hres : c.toolResults with
    | none =>
      rw [show fallbackCtx FallbackMode.compactTools c = none by
        simp [fallbackCtx, htools, hres]] at h
      cases h
    | some rs =>
      rw [show fallbackCtx FallbackMode.compactTools c = some c by
        simp [fallbackCtx, htools, hres]] at h
      rw [Option.some.injEq] at h
      subst h
      simp [fallbackCtx, htools, hres]
  | some ts =>
    rw [show fallbackCtx FallbackMode.compactTools c =
        some { c with tools := some ((ts.take 24).map fallbackCompactTool) } by
      simp [fallbackCtx, htools]] at h
    rw [Option.some.injEq] at h
    subst h
    refine fallbackCtx_compact_of_tools _ _ rfl ?_ ?_
    · rw [List.length_map]
      exact List.length_take_le 24 ts
    · rw [List.map_map, hff]

theorem fallbackCtx_idem (mode : FallbackMode) (c c' : UserInputMessageContext)
    (hm1 : mode ≠ FallbackMode.primary) (hm2 : mode ≠ FallbackMode.singleTurn)
    (h : fallbackCtx mode c = some c') : fallbackCtx mode c' = some c' := by
  cases mode with
  | primary => exact absurd rfl hm1
  | singleTurn => exact absurd rfl hm2
  | compactTools => exact fallbackCtx_compact_idem c c' h
  | noTools => rw [fallbackCtx_dropAll _ _ (by decide)] at h; cases h
  | trimHistory => rw [fallbackCtx_dropAll _ _ (by decide)] at h; cases h
  | minimalHistory => rw [fallbackCtx_dropAll _ _ (by decide)] at h; cases h

theorem fallbackCurrent_idem (mode : FallbackMode) (m : UserInputMessage)
    (hm1 : mode ≠ FallbackMode.primary) (hm2 : mode ≠ FallbackMode.singleTurn) :
    fallbackCurrent mode (fallbackCurrent mode m) = fallbackCurrent mode m := by
  unfold fallbackCurrent
  dsimp only
  cases hctx : m.userInputMessageContext with
  | none =>
    dsimp only
    rw [truncateString_idem]
  | some c =>
    dsimp only
    cases hfc : fallbackCtx mode c with
    | none =>
      dsimp only
      rw [truncateString_idem]
    | some c' =>
      dsimp only
      rw [fallbackCtx_idem mode c c' hm1 hm2 hfc]
      rw [truncateString_idem]

theorem jsSliceLast_map {α β : Type} (f : α → β) (l : List α) (n : Nat) :
    (jsSliceLast l n).map f = jsSliceLast (l.map f) n := by
  unfold jsSliceLast
  rw [List.map_drop, List.length_map]

theorem fallbackHistory_idem (mode : FallbackMode) (h : List HistoryEntry) :
    fallbackHistory mode (fallbackHistory mode h) = fallbackHistory mode h := by
  simp only [fallbackHistory]
  have hmap : ∀ l : List HistoryEntry,
      (l.map (sanitizeHistoryEntryForRetry mode)).map (sanitizeHistoryEntryForRetry mode) =
        l.map (sanitizeHistoryEntryForRetry mode) := fun l => by
    rw [List.map_map]
    exact List.map_congr_left (fun e _ => sanitizeHistoryEntry_idem mode e)
  by_cases ht : mode = FallbackMode.trimHistory
  · rw [if_pos ht, if_pos ht,
      jsSliceLast_map (sanitizeHistoryEntryForRetry mode) (h.map (sanitizeHistoryEntryForRetry mode)) 24,
      hmap h,
      jsSliceLast_of_le _ _ (jsSliceLast_length (h.map (sanitizeHistoryEntryForRetry mode)) 24)]
  · rw [if_neg ht, if_neg ht]
    by_cases hm : mode = FallbackMode.minimalHistory
    · rw [if_pos hm, if_pos hm,
        jsSliceLast_map (sanitizeHistoryEntryForRetry mode) (h.map (sanitizeHistoryEntryForRetry mode)) 8,
        hmap h,
        jsSliceLast_of_le _ _ (jsSliceLast_length (h.map (sanitizeHistoryEntryForRetry mode)) 8)]
    · rw [if_neg hm, if_neg hm, hmap h]

theorem trigStable (b : Bool) (g : String) :
    (if b && ((if b && (g == "AUTO") then "MANUAL" else g) == "AUTO") then "MANUAL"
      else if b && (g == "AUTO") then "MANUAL" else g) =
      if b && (g == "AUTO") then "MANUAL" else g := by
  by_cases hc : (b && (g == "AUTO")) = true
  · rw [if_pos hc]
    rw [ite_self]
  · rw [if_neg hc, if_neg hc]

/-- C8: for every upstream request body and every fallback mode other than
`primary` (the closed set compact-tools / no-tools / trim-history /
minimal-history / single-turn), applying `buildFallbackRequest` in that mode
to its own output yields the same body: the fallback transformation is
idempotent. The `uuidv4()` draws of the two applications are arbitrary
nonempty strings. -/
theorem claimC8_fallback_idempotent (req : KiroRequest) (mode : FallbackMode)
    (u1 u2 u3 u4 : String) (hmode : mode ≠ FallbackMode.primary)
    (hu1 : u1 ≠ "") (hu2 : u2 ≠ "") :
    buildFallbackRequest u3 u4 (buildFallbackRequest u1 u2 req mode) mode =
      buildFallbackRequest u1 u2 req mode := by
  by_cases hst : mode = FallbackMode.singleTurn
  · subst hst
    simp only [buildFallbackRequest, deepCopyRequest_eq, if_true]
    exact buildSingleTurnRequest_idem u1 u2 u3 u4 req hu1 hu2
  · simp only [buildFallbackRequest, deepCopyRequest_eq]
    rw [if_neg hst, if_neg hst]
    dsimp only
    rw [fallbackCurrent_idem mode req.conversationState.currentMessage hmode hst]
    rw [fallbackHistory_idem mode req.conversationState.history]
    rw [trigStable (!hasToolsOf (fallbackCurrent mode req.conversationState.currentMessage))
      req.conversationState.chatTriggerType]

/-- A concrete request used to witness the C8 idempotence theorem. -/
def reqC8 : KiroRequest :=
  ⟨⟨"", "", "AUTO",
    ⟨"hello", none, none,
     some ⟨some [⟨⟨"lookup", "a tool", defaultToolSchema⟩⟩], none⟩⟩,
    "", []⟩, none⟩

theorem claimC8_fallback_idempotent_witness :
    (FallbackMode.compactTools ≠ FallbackMode.primary ∧ ("u1" : String) ≠ "" ∧
      ("u2" : String) ≠ "") ∧
    buildFallbackRequest "u3" "u4"
        (buildFallbackRequest "u1" "u2" reqC8 FallbackMode.compactTools)
        FallbackMode.compactTools =
      buildFallbackRequest "u1" "u2" reqC8 FallbackMode.compactTools :=
  ⟨⟨by decide, by decide, by decide⟩,
   claimC8_fallback_idempotent reqC8 FallbackMode.compactTools "u1" "u2" "u3" "u4"
     (by decide) (by decide) (by decide)⟩
